import Mathlib

/-!
Verification development for a TypeScript chess engine
(src/src/ChessGame.ts, src/src/ChessAI.ts, src/src/utils.ts,
src/src/types.ts).

The embedding is a direct functional translation of the source.
JavaScript numbers used as board coordinates are modelled as Int
(offsets can be negative before the isValidPosition bounds check).
Array reads out of bounds yield undefined in JavaScript and are
modelled as none.  Each private method that reads fields of
this.state is translated as a function taking exactly those fields
as parameters; the public methods take the whole GameState.

One behavioural subtlety of the source is preserved faithfully:
isSquareAttacked(board, target, byColor) scans its board parameter
for attacking pieces, but the per-piece move generators it calls
read this.state.board.  Hence the embedded isSquareAttacked takes
two boards: the board of the engine state (used for ray walking and
occupancy inside the generators) and the scanned board parameter.
At its call sites the scanned pieces occupy the same squares on both
boards, so passing the scanned piece color to the generators agrees
with the source re-reading the color from this.state.board.
-/

set_option maxHeartbeats 4000000
set_option maxRecDepth 4096

namespace Chess

/-- types.ts PieceType -/
inductive PieceType where
  | pawn | rook | knight | bishop | queen | king
deriving DecidableEq, Repr

/-- types.ts Color -/
inductive Color where
  | white | black
deriving DecidableEq, Repr

/-- The color flip performed inline in makeMove. -/
def otherColor : Color → Color
  | .white => .black
  | .black => .white

/-- types.ts Piece -/
structure Piece where
  type : PieceType
  color : Color
deriving DecidableEq, Repr

/-- types.ts Position; row and col are JavaScript numbers, modelled as Int. -/
structure Position where
  row : Int
  col : Int
deriving DecidableEq, Repr

/-- types.ts Board = (Piece | null)[][] -/
abbrev Board := List (List (Option Piece))

/-- types.ts Move.  Optional fields absent in JavaScript are modelled as
none / false. -/
structure Move where
  fromSq : Position
  toSq : Position
  piece : Piece
  capturedPiece : Option Piece
  isEnPassant : Bool
  isCastling : Bool
  promoteTo : Option PieceType
deriving DecidableEq, Repr

/-- The shape of the canCastleKingSide / canCastleQueenSide records. -/
structure SideFlags where
  white : Bool
  black : Bool
deriving DecidableEq, Repr

/-- types.ts GameState -/
structure GameState where
  board : Board
  currentPlayer : Color
  moveHistory : List Move
  isCheck : Bool
  isCheckmate : Bool
  isStalemate : Bool
  canCastleKingSide : SideFlags
  canCastleQueenSide : SideFlags
  enPassantTarget : Option Position
deriving DecidableEq, Repr

/-- utils.ts createInitialBoard -/
def createInitialBoard : Board :=
  [ [some ⟨.rook, .black⟩, some ⟨.knight, .black⟩, some ⟨.bishop, .black⟩,
     some ⟨.queen, .black⟩, some ⟨.king, .black⟩, some ⟨.bishop, .black⟩,
     some ⟨.knight, .black⟩, some ⟨.rook, .black⟩],
    [some ⟨.pawn, .black⟩, some ⟨.pawn, .black⟩, some ⟨.pawn, .black⟩,
     some ⟨.pawn, .black⟩, some ⟨.pawn, .black⟩, some ⟨.pawn, .black⟩,
     some ⟨.pawn, .black⟩, some ⟨.pawn, .black⟩],
    [none, none, none, none, none, none, none, none],
    [none, none, none, none, none, none, none, none],
    [none, none, none, none, none, none, none, none],
    [none, none, none, none, none, none, none, none],
    [some ⟨.pawn, .white⟩, some ⟨.pawn, .white⟩, some ⟨.pawn, .white⟩,
     some ⟨.pawn, .white⟩, some ⟨.pawn, .white⟩, some ⟨.pawn, .white⟩,
     some ⟨.pawn, .white⟩, some ⟨.pawn, .white⟩],
    [some ⟨.rook, .white⟩, some ⟨.knight, .white⟩, some ⟨.bishop, .white⟩,
     some ⟨.queen, .white⟩, some ⟨.king, .white⟩, some ⟨.bishop, .white⟩,
     some ⟨.knight, .white⟩, some ⟨.rook, .white⟩] ]

/-- The back-rank piece order of utils.ts createInitialBoard. -/
def backRankOrder : List PieceType :=
  [.rook, .knight, .bishop, .queen, .king, .bishop, .knight, .rook]

/-- utils.ts isValidPosition -/
def isValidPosition (pos : Position) : Bool :=
  decide (0 ≤ pos.row ∧ pos.row < 8 ∧ 0 ≤ pos.col ∧ pos.col < 8)

/-- utils.ts positionsEqual -/
def positionsEqual (p1 p2 : Position) : Bool :=
  p1.row == p2.row && p1.col == p2.col

/-- utils.ts copyBoard; at the level of values the copy equals its source. -/
def copyBoard (board : Board) : Board :=
  board.map (fun row => row.map (fun cell => cell))

/-- board[r][c]; a JavaScript read of a missing index yields undefined,
modelled as none. -/
def boardGet (board : Board) (r c : Int) : Option Piece :=
  if 0 ≤ r ∧ 0 ≤ c then (board.getD r.toNat []).getD c.toNat none else none

/-- board[r][c] = v; all writes performed by the source are at in-range
indices of an 8 by 8 board. -/
def boardSet (board : Board) (r c : Int) (v : Option Piece) : Board :=
  if 0 ≤ r ∧ 0 ≤ c then board.set r.toNat ((board.getD r.toNat []).set c.toNat v)
  else board

/-- ChessGame.getPawnMoves.  Reads this.state.board and
this.state.enPassantTarget, taken here as parameters.  Push order of the
source is preserved: forward moves first, then the two capture columns,
each pushing the occupied-enemy case before the en-passant case. -/
def getPawnMoves (board : Board) (enPassantTarget : Option Position)
    (fromSq : Position) (color : Color) : List Position :=
  let direction : Int := if color = .white then -1 else 1
  let startRow : Int := if color = .white then 6 else 1
  let oneStep : Position := ⟨fromSq.row + direction, fromSq.col⟩
  let forward : List Position :=
    if isValidPosition oneStep && (boardGet board oneStep.row oneStep.col).isNone then
      let twoStep : Position := ⟨fromSq.row + 2 * direction, fromSq.col⟩
      if fromSq.row = startRow ∧
          (isValidPosition twoStep && (boardGet board twoStep.row twoStep.col).isNone) = true then
        [oneStep, twoStep]
      else [oneStep]
    else []
  let capture (pos : Position) : List Position :=
    if isValidPosition pos then
      (match boardGet board pos.row pos.col with
        | some target => if target.color ≠ color then [pos] else []
        | none => []) ++
      (match enPassantTarget with
        | some ep => if positionsEqual pos ep then [pos] else []
        | none => [])
    else []
  forward ++ capture ⟨fromSq.row + direction, fromSq.col - 1⟩ ++
    capture ⟨fromSq.row + direction, fromSq.col + 1⟩

/-- One sliding direction of getRookMoves / getBishopMoves: the inner
for-loop over i = 1..7 walking until the edge, a friendly piece (stop
before) or an enemy piece (include, then stop).  The fuel argument starts
at 7, matching the loop bound. -/
def ray (board : Board) (myColor : Color) (dr dc : Int) :
    Position → Nat → List Position
  | _, 0 => []
  | cur, n+1 =>
    let pos : Position := ⟨cur.row + dr, cur.col + dc⟩
    if isValidPosition pos then
      match boardGet board pos.row pos.col with
      | none => pos :: ray board myColor dr dc pos n
      | some piece => if piece.color ≠ myColor then [pos] else []
    else []

/-- ChessGame.getRookMoves.  The source compares blocker colors against
board[from.row][from.col]!.color; at every call site that equals the color
of the piece being moved, passed here as myColor. -/
def getRookMoves (board : Board) (fromSq : Position) (myColor : Color) :
    List Position :=
  ([(-1, 0), (1, 0), (0, -1), (0, 1)] : List (Int × Int)).flatMap
    (fun d => ray board myColor d.1 d.2 fromSq 7)

/-- ChessGame.getKnightMoves -/
def getKnightMoves (board : Board) (fromSq : Position) (myColor : Color) :
    List Position :=
  (([(-2, -1), (-2, 1), (-1, -2), (-1, 2), (1, -2), (1, 2), (2, -1), (2, 1)] :
      List (Int × Int)).map
    (fun d => (⟨fromSq.row + d.1, fromSq.col + d.2⟩ : Position))).filter
    (fun pos => isValidPosition pos &&
      (match boardGet board pos.row pos.col with
        | none => true
        | some piece => piece.color ≠ myColor))

/-- ChessGame.getBishopMoves -/
def getBishopMoves (board : Board) (fromSq : Position) (myColor : Color) :
    List Position :=
  ([(-1, -1), (-1, 1), (1, -1), (1, 1)] : List (Int × Int)).flatMap
    (fun d => ray board myColor d.1 d.2 fromSq 7)

/-- ChessGame.getQueenMoves -/
def getQueenMoves (board : Board) (fromSq : Position) (myColor : Color) :
    List Position :=
  getRookMoves board fromSq myColor ++ getBishopMoves board fromSq myColor

/-- ChessGame.getKingMoves.  Reads the castling-rights flags of
this.state; the castling block checks only the rights flag and the
emptiness of the intervening squares (not the rook square itself). -/
def getKingMoves (board : Board) (canCastleKingSide canCastleQueenSide : SideFlags)
    (fromSq : Position) (myColor : Color) : List Position :=
  let normal :=
    (([(-1, -1), (-1, 0), (-1, 1), (0, -1), (0, 1), (1, -1), (1, 0), (1, 1)] :
        List (Int × Int)).map
      (fun d => (⟨fromSq.row + d.1, fromSq.col + d.2⟩ : Position))).filter
      (fun pos => isValidPosition pos &&
        (match boardGet board pos.row pos.col with
          | none => true
          | some piece => piece.color ≠ myColor))
  let castling : List Position :=
    if myColor = .white ∧ fromSq.row = 7 ∧ fromSq.col = 4 then
      (if canCastleKingSide.white && (boardGet board 7 5).isNone &&
          (boardGet board 7 6).isNone then [⟨7, 6⟩] else []) ++
      (if canCastleQueenSide.white && (boardGet board 7 3).isNone &&
          (boardGet board 7 2).isNone && (boardGet board 7 1).isNone then
        [⟨7, 2⟩] else [])
    else if myColor = .black ∧ fromSq.row = 0 ∧ fromSq.col = 4 then
      (if canCastleKingSide.black && (boardGet board 0 5).isNone &&
          (boardGet board 0 6).isNone then [⟨0, 6⟩] else []) ++
      (if canCastleQueenSide.black && (boardGet board 0 3).isNone &&
          (boardGet board 0 2).isNone && (boardGet board 0 1).isNone then
        [⟨0, 2⟩] else [])
    else []
  normal ++ castling

/-- ChessGame.calculateLegalMoves: dispatch on the piece type.  The state
fields the generators read are passed through. -/
def calculateLegalMoves (board : Board) (enPassantTarget : Option Position)
    (canCastleKingSide canCastleQueenSide : SideFlags)
    (fromSq : Position) (piece : Piece) : List Position :=
  match piece.type with
  | .pawn => getPawnMoves board enPassantTarget fromSq piece.color
  | .rook => getRookMoves board fromSq piece.color
  | .knight => getKnightMoves board fromSq piece.color
  | .bishop => getBishopMoves board fromSq piece.color
  | .queen => getQueenMoves board fromSq piece.color
  | .king => getKingMoves board canCastleKingSide canCastleQueenSide fromSq piece.color

/-- The row-major scan order of the nested for-loops over the 8 by 8 grid. -/
def allSquares : List Position :=
  (List.range 8).flatMap (fun r => (List.range 8).map
    (fun c => (⟨Int.ofNat r, Int.ofNat c⟩ : Position)))

/-- ChessGame.findKing: first king of the color in row-major order. -/
def findKing (board : Board) (color : Color) : Option Position :=
  allSquares.find? (fun p =>
    match boardGet board p.row p.col with
    | some piece => piece.type == .king && piece.color == color
    | none => false)

/-- ChessGame.isSquareAttacked.  scanBoard is the board parameter of the
source, scanned for pieces of byColor; stateBoard (with the en-passant
target and castling rights) is this.state, which the move generators
called from here actually read. -/
def isSquareAttacked (stateBoard : Board) (enPassantTarget : Option Position)
    (canCastleKingSide canCastleQueenSide : SideFlags)
    (scanBoard : Board) (target : Position) (byColor : Color) : Bool :=
  allSquares.any (fun p =>
    match boardGet scanBoard p.row p.col with
    | some piece =>
      piece.color == byColor &&
        (calculateLegalMoves stateBoard enPassantTarget canCastleKingSide
          canCastleQueenSide p piece).any (fun m => positionsEqual m target)
    | none => false)

/-- ChessGame.isInCheck: a missing king degrades to "not in check". -/
def isInCheck (stateBoard : Board) (enPassantTarget : Option Position)
    (canCastleKingSide canCastleQueenSide : SideFlags)
    (board : Board) (color : Color) : Bool :=
  match findKing board color with
  | none => false
  | some kingPos =>
    isSquareAttacked stateBoard enPassantTarget canCastleKingSide
      canCastleQueenSide board kingPos (otherColor color)

/-- ChessGame.simulateMove: relocate only the moved piece on a board copy;
no castling, en-passant or promotion side effects. -/
def simulateMove (board : Board) (move : Move) : Board :=
  boardSet (boardSet (copyBoard board) move.toSq.row move.toSq.col (some move.piece))
    move.fromSq.row move.fromSq.col none

/-- ChessGame.isLegalMove: the mover's king must not be reported attacked
on the simulated board (with attack rays computed on the unsimulated
state board, as in the source). -/
def isLegalMove (board : Board) (enPassantTarget : Option Position)
    (canCastleKingSide canCastleQueenSide : SideFlags)
    (currentPlayer : Color) (move : Move) : Bool :=
  !(isInCheck board enPassantTarget canCastleKingSide canCastleQueenSide
      (simulateMove board move) currentPlayer)

/-- ChessGame.getPossibleMoves -/
def getPossibleMoves (s : GameState) (fromSq : Position) : List Position :=
  match boardGet s.board fromSq.row fromSq.col with
  | none => []
  | some piece =>
    if piece.color ≠ s.currentPlayer then []
    else
      (calculateLegalMoves s.board s.enPassantTarget s.canCastleKingSide
        s.canCastleQueenSide fromSq piece).filter
        (fun dest => isLegalMove s.board s.enPassantTarget s.canCastleKingSide
          s.canCastleQueenSide s.currentPlayer
          ⟨fromSq, dest, piece, none, false, false, none⟩)

/-- ChessGame.handleSpecialMoves.  The source mutates this.state.board,
the move record and the piece object (promotion mutates piece.type in
place; the piece object is also move.piece).  Returned here as the
updated state and the updated move record, whose piece field carries the
possibly promoted piece.  The branch order (castling, en passant,
promotion) and the board-write order of the source are preserved. -/
def handleSpecialMoves (s : GameState) (move : Move) : GameState × Move :=
  let piece := move.piece
  let step1 : GameState × Move :=
    if piece.type = .king ∧ (move.toSq.col - move.fromSq.col).natAbs = 2 then
      let isKingSide := move.toSq.col > move.fromSq.col
      let rookFromCol : Int := if isKingSide then 7 else 0
      let rookToCol : Int := if isKingSide then 5 else 3
      let row := move.fromSq.row
      let b1 := boardSet s.board row rookToCol (boardGet s.board row rookFromCol)
      let b2 := boardSet b1 row rookFromCol none
      ({ s with board := b2 }, { move with isCastling := true })
    else (s, move)
  let step2 : GameState × Move :=
    if piece.type = .pawn ∧
        (match step1.1.enPassantTarget with
          | some ep => positionsEqual move.toSq ep
          | none => false) = true then
      let capturedPawnRow : Int :=
        if piece.color = .white then move.toSq.row + 1 else move.toSq.row - 1
      ({ step1.1 with
          board := boardSet step1.1.board capturedPawnRow move.toSq.col none },
        { step1.2 with isEnPassant := true })
    else step1
  if piece.type = .pawn ∧ (move.toSq.row = 0 ∨ move.toSq.row = 7) then
    (step2.1,
      { step2.2 with promoteTo := some PieceType.queen, piece := { piece with type := .queen } })
  else step2

/-- ChessGame.updateCastlingRights.  Rights are only ever cleared.  The
move record passed in carries the possibly promoted piece, exactly as the
mutated move.piece the source reads. -/
def updateCastlingRights (s : GameState) (move : Move) : GameState :=
  let piece := move.piece
  let s1 :=
    if piece.type = .king then
      if piece.color = .white then
        { s with canCastleKingSide := { s.canCastleKingSide with white := false },
                 canCastleQueenSide := { s.canCastleQueenSide with white := false } }
      else
        { s with canCastleKingSide := { s.canCastleKingSide with black := false },
                 canCastleQueenSide := { s.canCastleQueenSide with black := false } }
    else s
  if piece.type = .rook then
    if piece.color = .white ∧ move.fromSq.row = 7 then
      let s2 := if move.fromSq.col = 0 then
          { s1 with canCastleQueenSide := { s1.canCastleQueenSide with white := false } }
        else s1
      if move.fromSq.col = 7 then
        { s2 with canCastleKingSide := { s2.canCastleKingSide with white := false } }
      else s2
    else if piece.color = .black ∧ move.fromSq.row = 0 then
      let s2 := if move.fromSq.col = 0 then
          { s1 with canCastleQueenSide := { s1.canCastleQueenSide with black := false } }
        else s1
      if move.fromSq.col = 7 then
        { s2 with canCastleKingSide := { s2.canCastleKingSide with black := false } }
      else s2
    else s1
  else s1

/-- ChessGame.updateEnPassantTarget.  Math.abs(to.row - from.row) === 2
and the passed-over square (from.row + to.row) / 2; the division is exact
whenever the condition holds. -/
def updateEnPassantTarget (s : GameState) (move : Move) : GameState :=
  if move.piece.type = .pawn ∧ (move.toSq.row - move.fromSq.row).natAbs = 2 then
    { s with enPassantTarget := (some ⟨(move.fromSq.row + move.toSq.row) / 2, move.fromSq.col⟩) }
  else { s with enPassantTarget := none }

/-- ChessGame.hasLegalMoves: row-major scan for a piece of the color with
a nonempty getPossibleMoves result. -/
def hasLegalMoves (s : GameState) (color : Color) : Bool :=
  allSquares.any (fun p =>
    match boardGet s.board p.row p.col with
    | some piece =>
      piece.color == color && decide (0 < (getPossibleMoves s p).length)
    | none => false)

/-- ChessGame.updateGameStatus: recompute isCheck for the side to move,
then set isCheckmate or isStalemate when that side has no legal move.
Flags are never cleared. -/
def updateGameStatus (s : GameState) : GameState :=
  let s1 := { s with isCheck := (isInCheck s.board s.enPassantTarget
      s.canCastleKingSide s.canCastleQueenSide s.board s.currentPlayer) }
  if !(hasLegalMoves s1 s1.currentPlayer) then
    if s1.isCheck then { s1 with isCheckmate := true }
    else { s1 with isStalemate := true }
  else s1

/-- The success branch of ChessGame.makeMove, given the piece found at
the origin square: record the captured piece, apply special-move side
effects, relocate the piece, push the move, update castling rights and
the en-passant target, flip the player, recompute status. -/
def makeMoveBody (s : GameState) (fromSq toSq : Position) (piece : Piece) :
    GameState :=
  let capturedPiece := boardGet s.board toSq.row toSq.col
  let move : Move := ⟨fromSq, toSq, piece, capturedPiece, false, false, none⟩
  let hs := handleSpecialMoves s move
  let b2 := boardSet (boardSet hs.1.board toSq.row toSq.col (some hs.2.piece))
      fromSq.row fromSq.col none
  let s2 := { hs.1 with board := b2, moveHistory := hs.1.moveHistory ++ [hs.2] }
  let s3 := updateCastlingRights s2 hs.2
  let s4 := updateEnPassantTarget s3 hs.2
  let s5 := { s4 with currentPlayer := otherColor s4.currentPlayer }
  updateGameStatus s5

/-- ChessGame.makeMove.  All three rejection paths return before any
state mutation. -/
def makeMove (s : GameState) (fromSq toSq : Position) : Bool × GameState :=
  match boardGet s.board fromSq.row fromSq.col with
  | none => (false, s)
  | some piece =>
    if piece.color ≠ s.currentPlayer then (false, s)
    else if !((getPossibleMoves s fromSq).any (fun pos => positionsEqual pos toSq)) then
      (false, s)
    else (true, makeMoveBody s fromSq toSq piece)

/-- ChessGame.getAllLegalMoves -/
def getAllLegalMoves (s : GameState) (color : Color) : List Move :=
  allSquares.flatMap (fun p =>
    match boardGet s.board p.row p.col with
    | some piece =>
      if piece.color = color then
        (getPossibleMoves s p).map (fun dest =>
          ⟨p, dest, piece, boardGet s.board dest.row dest.col, false, false, none⟩)
      else []
    | none => [])

/-- ChessGame.applyMove: re-invokes makeMove, discarding the boolean. -/
def applyMove (s : GameState) (move : Move) : GameState :=
  (makeMove s move.fromSq move.toSq).2

/-- ChessGame.createInitialGameState -/
def createInitialGameState : GameState :=
  ⟨createInitialBoard, .white, [], false, false, false,
    ⟨true, true⟩, ⟨true, true⟩, none⟩

/-- The states the engine can actually be in: the initial state and
everything produced from it by successful makeMove calls. -/
inductive Reachable : GameState → Prop where
  | init : Reachable createInitialGameState
  | step (s s2 : GameState) (f t : Position) :
      Reachable s → makeMove s f t = (true, s2) → Reachable s2

/-- JavaScript numbers as used by the search: -Infinity, finite integers
(all evaluation constants are integers), +Infinity. -/
inductive Ext where
  | negInf | fin (n : Int) | posInf
deriving DecidableEq, Repr

/-- The JavaScript <= comparison on Ext values. -/
def Ext.ble : Ext → Ext → Bool
  | .negInf, _ => true
  | .fin _, .negInf => false
  | .fin a, .fin b => decide (a ≤ b)
  | .fin _, .posInf => true
  | .posInf, .posInf => true
  | .posInf, _ => false

/-- The JavaScript < comparison (total order, no NaN involved). -/
def Ext.blt (a b : Ext) : Bool := !(Ext.ble b a)

/-- Math.max -/
def Ext.maxE (a b : Ext) : Ext := if Ext.ble a b then b else a

/-- Math.min -/
def Ext.minE (a b : Ext) : Ext := if Ext.ble a b then a else b

/-- ChessAI.pieceValues -/
def pieceValues : PieceType → Int
  | .pawn => 100
  | .knight => 320
  | .bishop => 330
  | .rook => 500
  | .queen => 900
  | .king => 20000

/-- ChessAI.pawnTable -/
def pawnTable : List (List Int) :=
  [[0, 0, 0, 0, 0, 0, 0, 0],
   [50, 50, 50, 50, 50, 50, 50, 50],
   [10, 10, 20, 30, 30, 20, 10, 10],
   [5, 5, 10, 25, 25, 10, 5, 5],
   [0, 0, 0, 20, 20, 0, 0, 0],
   [5, -5, -10, 0, 0, -10, -5, 5],
   [5, 10, 10, -20, -20, 10, 10, 5],
   [0, 0, 0, 0, 0, 0, 0, 0]]

/-- ChessAI.knightTable -/
def knightTable : List (List Int) :=
  [[-50, -40, -30, -30, -30, -30, -40, -50],
   [-40, -20, 0, 0, 0, 0, -20, -40],
   [-30, 0, 10, 15, 15, 10, 0, -30],
   [-30, 5, 15, 20, 20, 15, 5, -30],
   [-30, 0, 15, 20, 20, 15, 0, -30],
   [-30, 5, 10, 15, 15, 10, 5, -30],
   [-40, -20, 0, 5, 5, 0, -20, -40],
   [-50, -40, -30, -30, -30, -30, -40, -50]]

/-- ChessAI.bishopTable -/
def bishopTable : List (List Int) :=
  [[-20, -10, -10, -10, -10, -10, -10, -20],
   [-10, 0, 0, 0, 0, 0, 0, -10],
   [-10, 0, 5, 10, 10, 5, 0, -10],
   [-10, 5, 5, 10, 10, 5, 5, -10],
   [-10, 0, 10, 10, 10, 10, 0, -10],
   [-10, 10, 10, 10, 10, 10, 10, -10],
   [-10, 5, 0, 0, 0, 0, 5, -10],
   [-20, -10, -10, -10, -10, -10, -10, -20]]

/-- ChessAI.rookTable -/
def rookTable : List (List Int) :=
  [[0, 0, 0, 0, 0, 0, 0, 0],
   [5, 10, 10, 10, 10, 10, 10, 5],
   [-5, 0, 0, 0, 0, 0, 0, -5],
   [-5, 0, 0, 0, 0, 0, 0, -5],
   [-5, 0, 0, 0, 0, 0, 0, -5],
   [-5, 0, 0, 0, 0, 0, 0, -5],
   [-5, 0, 0, 0, 0, 0, 0, -5],
   [0, 0, 0, 5, 5, 0, 0, 0]]

/-- ChessAI.queenTable -/
def queenTable : List (List Int) :=
  [[-20, -10, -10, -5, -5, -10, -10, -20],
   [-10, 0, 0, 0, 0, 0, 0, -10],
   [-10, 0, 5, 5, 5, 5, 0, -10],
   [-5, 0, 5, 5, 5, 5, 0, -5],
   [0, 0, 5, 5, 5, 5, 0, -5],
   [-10, 5, 5, 5, 5, 5, 0, -10],
   [-10, 0, 5, 0, 0, 0, 0, -10],
   [-20, -10, -10, -5, -5, -10, -10, -20]]

/-- ChessAI.kingMiddleGameTable -/
def kingMiddleGameTable : List (List Int) :=
  [[-30, -40, -40, -50, -50, -40, -40, -30],
   [-30, -40, -40, -50, -50, -40, -40, -30],
   [-30, -40, -40, -50, -50, -40, -40, -30],
   [-30, -40, -40, -50, -50, -40, -40, -30],
   [-20, -30, -30, -40, -40, -30, -30, -20],
   [-10, -20, -20, -20, -20, -20, -20, -10],
   [20, 20, 0, 0, 0, 0, 20, 20],
   [20, 30, 10, 0, 0, 10, 30, 20]]

/-- table[adjustedRow][col]; every occupied square of the board scan has
both indices in range. -/
def tableGet (t : List (List Int)) (r c : Int) : Int :=
  if 0 ≤ r ∧ 0 ≤ c then (t.getD r.toNat []).getD c.toNat 0 else 0

/-- ChessAI.getPositionValue -/
def getPositionValue (piece : Piece) (position : Position) : Int :=
  let adjustedRow : Int := if piece.color = .white then 7 - position.row else position.row
  match piece.type with
  | .pawn => tableGet pawnTable adjustedRow position.col
  | .knight => tableGet knightTable adjustedRow position.col
  | .bishop => tableGet bishopTable adjustedRow position.col
  | .rook => tableGet rookTable adjustedRow position.col
  | .queen => tableGet queenTable adjustedRow position.col
  | .king => tableGet kingMiddleGameTable adjustedRow position.col

/-- ChessAI.getPieceValue -/
def getPieceValue (piece : Piece) (position : Position) : Int :=
  pieceValues piece.type + getPositionValue piece position

/-- ChessAI.evaluatePosition: black positive, white negative. -/
def evaluatePosition (board : Board) : Int :=
  allSquares.foldl (fun score p =>
    match boardGet board p.row p.col with
    | some piece =>
      score + (if piece.color = .black then getPieceValue piece p
               else -(getPieceValue piece p))
    | none => score) 0

/-- Modelled from the spec: the maximizing loop of ChessAI.minimax
under the deep-copy reading of createGameCopy, in which every child is
an independent value copy of the node state.  Eval each child with the
current window, fold maxEval and alpha, and break the remaining
siblings as soon as beta <= alpha; the recursive minimax call one ply
deeper is abstracted as f.  The reference-semantics loop, threading the
heaps the source actually shares across copies, is abMaxLoopR below. -/
def abMaxLoop (f : GameState → Ext → Ext → Ext) (s : GameState) :
    List Move → Ext → Ext → Ext → Ext
  | [], _, _, maxEval => maxEval
  | m :: rest, alpha, beta, maxEval =>
    let child := applyMove s m
    let e := f child alpha beta
    let maxEval2 := Ext.maxE maxEval e
    let alpha2 := Ext.maxE alpha e
    if Ext.ble beta alpha2 then maxEval2
    else abMaxLoop f s rest alpha2 beta maxEval2

/-- Modelled from the spec: the minimizing loop, dual to abMaxLoop;
the reference-semantics loop is abMinLoopR below. -/
def abMinLoop (f : GameState → Ext → Ext → Ext) (s : GameState) :
    List Move → Ext → Ext → Ext → Ext
  | [], _, _, minEval => minEval
  | m :: rest, alpha, beta, minEval =>
    let child := applyMove s m
    let e := f child alpha beta
    let minEval2 := Ext.minE minEval e
    let beta2 := Ext.minE beta e
    if Ext.ble beta2 alpha then minEval2
    else abMinLoop f s rest alpha beta2 minEval2

/-- Modelled from the spec: ChessAI.minimax with alpha-beta pruning
under the deep-copy reading of createGameCopy (value-semantics
children).  The maximizing side is black; the side to enumerate is
derived from isMaximizing exactly as in the source.  The
reference-semantics embedding of the source search, with the shared
rights objects and piece objects that it actually mutates across
branches, is minimaxR below. -/
def minimax (s : GameState) : Nat → Ext → Ext → Bool → Ext
  | 0, _, _, _ => .fin (evaluatePosition s.board)
  | d+1, alpha, beta, isMax =>
    if s.isCheckmate || s.isStalemate then .fin (evaluatePosition s.board)
    else if isMax then
      abMaxLoop (fun g a b => minimax g d a b false) s
        (getAllLegalMoves s .black) alpha beta .negInf
    else
      abMinLoop (fun g a b => minimax g d a b true) s
        (getAllLegalMoves s .white) alpha beta .posInf

/-- Modelled from the spec: the unpruned minimax used as the reference
point of the pruning claim ("an unpruned minimax over the identical
position and depth").  Identical to minimax but folding max / min over
every child with no window and no cutoff. -/
def plainMaxLoop (f : GameState → Ext) (s : GameState) :
    List Move → Ext → Ext
  | [], acc => acc
  | m :: rest, acc => plainMaxLoop f s rest (Ext.maxE acc (f (applyMove s m)))

/-- Modelled from the spec: minimizing loop of the unpruned minimax. -/
def plainMinLoop (f : GameState → Ext) (s : GameState) :
    List Move → Ext → Ext
  | [], acc => acc
  | m :: rest, acc => plainMinLoop f s rest (Ext.minE acc (f (applyMove s m)))

/-- Modelled from the spec: the unpruned minimax itself. -/
def minimaxPlain (s : GameState) : Nat → Bool → Ext
  | 0, _ => .fin (evaluatePosition s.board)
  | d+1, isMax =>
    if s.isCheckmate || s.isStalemate then .fin (evaluatePosition s.board)
    else if isMax then
      plainMaxLoop (fun g => minimaxPlain g d false) s
        (getAllLegalMoves s .black) .negInf
    else
      plainMinLoop (fun g => minimaxPlain g d true) s
        (getAllLegalMoves s .white) .posInf

/-- Modelled from the spec: ChessAI.getBestMove under the deep-copy
reading of createGameCopy: enumerate the legal moves of black, score
each child with minimax at depth maxDepth - 1 = 3 over the full window,
keep the first strictly best move.  The reference-semantics embedding
is getBestMoveR below. -/
def getBestMove (s : GameState) : Option Move :=
  let legalMoves := getAllLegalMoves s .black
  if legalMoves.isEmpty then none
  else
    (legalMoves.foldl (fun acc m =>
      let value := minimax (applyMove s m) 3 .negInf .posInf false
      if Ext.blt acc.2 value then (some m, value) else acc)
      ((none : Option Move), Ext.negInf)).1

/-- Modelled from the spec: getBestMove driven by the unpruned minimax,
the comparison point for the pruning claim. -/
def getBestMovePlain (s : GameState) : Option Move :=
  let legalMoves := getAllLegalMoves s .black
  if legalMoves.isEmpty then none
  else
    (legalMoves.foldl (fun acc m =>
      let value := minimaxPlain (applyMove s m) 3 false
      if Ext.blt acc.2 value then (some m, value) else acc)
      ((none : Option Move), Ext.negInf)).1

/-- The fail-soft alpha-beta contract: inside the window the pruned
result r equals the true value v; at or below alpha it is an upper bound
on v; at or above beta it is a lower bound on v. -/
def Rrel (r v alpha beta : Ext) : Prop :=
  (Ext.ble r alpha = false → Ext.ble beta r = false → r = v) ∧
  (Ext.ble r alpha = true → Ext.ble v r = true) ∧
  (Ext.ble beta r = true → Ext.ble r v = true)

/-!
Reference-level model of the snapshot sharing of getGameState.

In the source, getGameState returns { ...this.state, board:
copyBoard(this.state.board) }: the spread copies the moveHistory field
and the two castling-rights fields as references to the same array and
the same two objects the engine keeps mutating, while only the grid is
rebuilt (fresh outer array, fresh row arrays).  To state claims about
that sharing, the mutable array and rights objects live in an explicit
heap addressed by indices, and a state object holds references into it.
-/

/-- The heap of mutable JavaScript objects relevant to snapshot sharing:
move-history arrays and castling-rights objects, addressed by index. -/
structure JsHeap where
  historyArrays : List (List Move)
  rightsObjs : List SideFlags
deriving DecidableEq, Repr

/-- A GameState object as the engine stores it: plain fields by value,
the mutable moveHistory array and rights objects by reference. -/
structure JsStateRef where
  board : Board
  currentPlayer : Color
  historyRef : Nat
  isCheck : Bool
  isCheckmate : Bool
  isStalemate : Bool
  kingSideRef : Nat
  queenSideRef : Nat
  enPassantTarget : Option Position
deriving DecidableEq, Repr

/-- Read a reference-level state through the heap, yielding the
observable GameState value. -/
def resolveJs (st : JsStateRef) (h : JsHeap) : GameState :=
  ⟨st.board, st.currentPlayer, h.historyArrays.getD st.historyRef [],
    st.isCheck, st.isCheckmate, st.isStalemate,
    h.rightsObjs.getD st.kingSideRef ⟨true, true⟩,
    h.rightsObjs.getD st.queenSideRef ⟨true, true⟩, st.enPassantTarget⟩

/-- ChessGame.getGameState at the reference level:
{ ...this.state, board: copyBoard(this.state.board) }.  The spread
copies historyRef, kingSideRef and queenSideRef unchanged; only the
grid is rebuilt by copyBoard. -/
def getGameStateJs (st : JsStateRef) : JsStateRef :=
  { st with board := copyBoard st.board }

/-- ChessGame.makeMove at the reference level: the computation is the
pure makeMove on the resolved state; on success the source pushes onto
the shared history array and assigns fields of the shared rights
objects in place, so the new history and rights are written back
through the unchanged references. -/
def makeMoveJs (st : JsStateRef) (h : JsHeap) (f t : Position) :
    Bool × JsStateRef × JsHeap :=
  let r := makeMove (resolveJs st h) f t
  if r.1 then
    (true,
      { st with board := r.2.board, currentPlayer := r.2.currentPlayer, isCheck := r.2.isCheck, isCheckmate := r.2.isCheckmate, isStalemate := r.2.isStalemate, enPassantTarget := r.2.enPassantTarget },
      ⟨h.historyArrays.set st.historyRef r.2.moveHistory,
        (h.rightsObjs.set st.kingSideRef r.2.canCastleKingSide).set
          st.queenSideRef r.2.canCastleQueenSide⟩)
  else (false, st, h)

/-- The engine object graph right after the constructor: empty history
array at address 0, the two rights objects at addresses 0 and 1. -/
def initJsState : JsStateRef :=
  ⟨createInitialBoard, .white, 0, false, false, false, 0, 1, none⟩

/-- The heap matching initJsState. -/
def initJsHeap : JsHeap :=
  ⟨[[]], [⟨true, true⟩, ⟨true, true⟩]⟩

/-!
Reference-semantics embedding of the search (ChessAI.createGameCopy,
minimax, getBestMove).

createGameCopy spreads getGameState: the board arrays of a copy are
fresh (copyBoard twice), but every cell still holds the same Piece
object as the live game, and canCastleKingSide / canCastleQueenSide are
the same two objects in every copy and in the live game.
updateCastlingRights mutates those objects in place, and pawn promotion
mutates piece.type in place, so exploring one branch contaminates its
later siblings, its ancestors and the live game.  To state this, the
piece objects live in a piece heap and the two rights objects in a
rights heap; a board cell is an index into the piece heap, a state
carries the indices of its rights objects, and the heaps thread through
the search in execution order.

Inside one engine call every read (move generation, legality checks,
evaluation, status recomputation) happens between mutations, so reads
are taken on the resolved value state via the engine functions above,
while every write is performed at the reference level.
-/

/-- A board of piece references: the source board holds shared Piece
objects; copyBoard copies only the arrays, never the pieces. -/
abbrev RBoard := List (List (Option Nat))

/-- The mutable objects shared between the live game and every search
copy: the piece objects and the two castling-rights objects. -/
structure SearchHeap where
  pieces : List Piece
  rights : List SideFlags
deriving DecidableEq, Repr

/-- A game state as a search copy holds it: plain fields by value, the
board cells and the two rights objects as references into the shared
heaps.  createGameCopy is the identity on this representation (fresh
arrays with the same cell references, the same rights references, a
fresh history array), with the heaps threaded separately. -/
structure RGameState where
  board : RBoard
  currentPlayer : Color
  moveHistory : List Move
  isCheck : Bool
  isCheckmate : Bool
  isStalemate : Bool
  ksRef : Nat
  qsRef : Nat
  enPassantTarget : Option Position
deriving DecidableEq, Repr

/-- board[r][c] on a reference board. -/
def rboardGet (board : RBoard) (r c : Int) : Option Nat :=
  if 0 ≤ r ∧ 0 ≤ c then (board.getD r.toNat []).getD c.toNat none else none

/-- board[r][c] = v on a reference board. -/
def rboardSet (board : RBoard) (r c : Int) (v : Option Nat) : RBoard :=
  if 0 ≤ r ∧ 0 ≤ c then board.set r.toNat ((board.getD r.toNat []).set c.toNat v)
  else board

/-- Dereference a state through the heaps: the value state that every
read of the source observes at that moment. -/
def resolveR (hp : SearchHeap) (st : RGameState) : GameState :=
  ⟨st.board.map (fun row => row.map (fun cell =>
      cell.map (fun r => hp.pieces.getD r ⟨.pawn, .white⟩))),
   st.currentPlayer, st.moveHistory, st.isCheck, st.isCheckmate, st.isStalemate,
   hp.rights.getD st.ksRef ⟨false, false⟩,
   hp.rights.getD st.qsRef ⟨false, false⟩,
   st.enPassantTarget⟩

/-- The success path of ChessGame.makeMove at the reference level: the
same pipeline as makeMoveBody, with the board writes on the reference
board, the promotion write on the shared piece object, and the
castling-rights writes on the shared rights objects.  updateGameStatus
reads the resolved post-move state. -/
def makeMoveBodyR (st : RGameState) (hp : SearchHeap) (f t : Position) (pref : Nat) :
    RGameState × SearchHeap :=
  let piece0 := hp.pieces.getD pref ⟨.pawn, .white⟩
  let capturedPiece := boardGet (resolveR hp st).board t.row t.col
  let stC : RGameState :=
    if piece0.type = .king ∧ (t.col - f.col).natAbs = 2 then
      let isKingSide := t.col > f.col
      let rookFromCol : Int := if isKingSide then 7 else 0
      let rookToCol : Int := if isKingSide then 5 else 3
      let b1 := rboardSet st.board f.row rookToCol (rboardGet st.board f.row rookFromCol)
      { st with board := rboardSet b1 f.row rookFromCol none }
    else st
  let stE : RGameState :=
    if piece0.type = .pawn ∧
        (match st.enPassantTarget with
          | some ep => positionsEqual t ep
          | none => false) = true then
      let capturedPawnRow : Int := if piece0.color = .white then t.row + 1 else t.row - 1
      { stC with board := rboardSet stC.board capturedPawnRow t.col none }
    else stC
  let hp2 : SearchHeap :=
    if piece0.type = .pawn ∧ (t.row = 0 ∨ t.row = 7) then
      { hp with pieces := hp.pieces.set pref { piece0 with type := .queen } }
    else hp
  let piece1 := hp2.pieces.getD pref ⟨.pawn, .white⟩
  let move : Move := ⟨f, t, piece1, capturedPiece,
    decide (piece0.type = .pawn ∧
      (match st.enPassantTarget with
        | some ep => positionsEqual t ep
        | none => false) = true),
    decide (piece0.type = .king ∧ (t.col - f.col).natAbs = 2),
    if piece0.type = .pawn ∧ (t.row = 0 ∨ t.row = 7) then some PieceType.queen else none⟩
  let b3 := rboardSet (rboardSet stE.board t.row t.col (some pref)) f.row f.col none
  let st2 := { stE with board := b3, moveHistory := stE.moveHistory ++ [move] }
  let hp3 : SearchHeap :=
    if piece1.type = .king then
      let r1 := hp2.rights.set st2.ksRef
        (if piece1.color = .white then
          { hp2.rights.getD st2.ksRef ⟨false, false⟩ with white := false }
        else { hp2.rights.getD st2.ksRef ⟨false, false⟩ with black := false })
      let r2 := r1.set st2.qsRef
        (if piece1.color = .white then
          { r1.getD st2.qsRef ⟨false, false⟩ with white := false }
        else { r1.getD st2.qsRef ⟨false, false⟩ with black := false })
      { hp2 with rights := r2 }
    else hp2
  let hp4 : SearchHeap :=
    if piece1.type = .rook then
      if piece1.color = .white ∧ f.row = 7 then
        let r1 := if f.col = 0 then
            hp3.rights.set st2.qsRef
              { hp3.rights.getD st2.qsRef ⟨false, false⟩ with white := false }
          else hp3.rights
        let r2 := if f.col = 7 then
            r1.set st2.ksRef { r1.getD st2.ksRef ⟨false, false⟩ with white := false }
          else r1
        { hp3 with rights := r2 }
      else if piece1.color = .black ∧ f.row = 0 then
        let r1 := if f.col = 0 then
            hp3.rights.set st2.qsRef
              { hp3.rights.getD st2.qsRef ⟨false, false⟩ with black := false }
          else hp3.rights
        let r2 := if f.col = 7 then
            r1.set st2.ksRef { r1.getD st2.ksRef ⟨false, false⟩ with black := false }
          else r1
        { hp3 with rights := r2 }
      else hp3
    else hp3
  let st3 : RGameState :=
    if piece1.type = .pawn ∧ (t.row - f.row).natAbs = 2 then
      { st2 with enPassantTarget := some ⟨(f.row + t.row) / 2, f.col⟩ }
    else { st2 with enPassantTarget := none }
  let st4 := { st3 with currentPlayer := otherColor st3.currentPlayer }
  let res := resolveR hp4 st4
  let st5 := { st4 with isCheck := (isInCheck res.board res.enPassantTarget
      res.canCastleKingSide res.canCastleQueenSide res.board res.currentPlayer) }
  let res2 := { res with isCheck := st5.isCheck }
  if !(hasLegalMoves res2 res2.currentPlayer) then
    if st5.isCheck then ({ st5 with isCheckmate := true }, hp4)
    else ({ st5 with isStalemate := true }, hp4)
  else (st5, hp4)

/-- ChessGame.makeMove at the reference level.  The rejection checks all
precede the first mutation, so they are read on the current heap values;
a rejected call leaves state and heaps untouched. -/
def makeMoveR (st : RGameState) (hp : SearchHeap) (f t : Position) :
    Bool × RGameState × SearchHeap :=
  match rboardGet st.board f.row f.col with
  | none => (false, st, hp)
  | some pref =>
    let piece := hp.pieces.getD pref ⟨.pawn, .white⟩
    if piece.color ≠ st.currentPlayer then (false, st, hp)
    else if !((getPossibleMoves (resolveR hp st) f).any fun pos => positionsEqual pos t) then
      (false, st, hp)
    else (true, makeMoveBodyR st hp f t pref)

/-- ChessGame.applyMove at the reference level: re-invokes makeMove and
discards the boolean, so a rejected move silently leaves the copy (and
the heaps) unchanged. -/
def applyMoveR (st : RGameState) (hp : SearchHeap) (move : Move) :
    RGameState × SearchHeap :=
  (makeMoveR st hp move.fromSq move.toSq).2

/-- The maximizing loop of ChessAI.minimax at the reference level: each
iteration copies the possibly contaminated node state (an identity on
the reference representation), applies the move, and threads the heaps
into the recursive call and on to the next sibling. -/
def abMaxLoopR (f : RGameState → SearchHeap → Ext → Ext → Ext × SearchHeap)
    (st : RGameState) :
    List Move → SearchHeap → Ext → Ext → Ext → Ext × SearchHeap
  | [], hp, _, _, maxEval => (maxEval, hp)
  | m :: rest, hp, alpha, beta, maxEval =>
    let child := applyMoveR st hp m
    let res := f child.1 child.2 alpha beta
    let maxEval2 := Ext.maxE maxEval res.1
    let alpha2 := Ext.maxE alpha res.1
    if Ext.ble beta alpha2 then (maxEval2, res.2)
    else abMaxLoopR f st rest res.2 alpha2 beta maxEval2

/-- The minimizing loop of ChessAI.minimax at the reference level. -/
def abMinLoopR (f : RGameState → SearchHeap → Ext → Ext → Ext × SearchHeap)
    (st : RGameState) :
    List Move → SearchHeap → Ext → Ext → Ext → Ext × SearchHeap
  | [], hp, _, _, minEval => (minEval, hp)
  | m :: rest, hp, alpha, beta, minEval =>
    let child := applyMoveR st hp m
    let res := f child.1 child.2 alpha beta
    let minEval2 := Ext.minE minEval res.1
    let beta2 := Ext.minE beta res.1
    if Ext.ble beta2 alpha then (minEval2, res.2)
    else abMinLoopR f st rest res.2 alpha beta2 minEval2

/-- ChessAI.minimax at the reference level: the legal moves of the node
are enumerated once on the resolved state before the loop, and the
heaps thread through the children in order. -/
def minimaxR (st : RGameState) (hp : SearchHeap) :
    Nat → Ext → Ext → Bool → Ext × SearchHeap
  | 0, _, _, _ => (.fin (evaluatePosition (resolveR hp st).board), hp)
  | d+1, alpha, beta, isMax =>
    if st.isCheckmate || st.isStalemate then
      (.fin (evaluatePosition (resolveR hp st).board), hp)
    else if isMax then
      abMaxLoopR (fun g h a b => minimaxR g h d a b false) st
        (getAllLegalMoves (resolveR hp st) .black) hp alpha beta .negInf
    else
      abMinLoopR (fun g h a b => minimaxR g h d a b true) st
        (getAllLegalMoves (resolveR hp st) .white) hp alpha beta .posInf

/-- ChessAI.getBestMove at the reference level: the root move list is
enumerated once on the live game; every iteration copies the live game
(sharing its pieces and rights objects), applies the move, scores it at
depth 3, and the heaps carry any contamination on to the next root
move. -/
def getBestMoveR (st : RGameState) (hp : SearchHeap) : Option Move :=
  let legalMoves := getAllLegalMoves (resolveR hp st) .black
  if legalMoves.isEmpty then none
  else
    (legalMoves.foldl (fun acc m =>
      let applied := makeMoveR st acc.2.2 m.fromSq m.toSq
      let res := minimaxR applied.2.1 applied.2.2 3 .negInf .posInf false
      if Ext.blt acc.2.1 res.1 then (some m, res.1, res.2)
      else (acc.1, acc.2.1, res.2))
      ((none : Option Move), Ext.negInf, hp)).1

/-- The shared heap of the search fixtures: a black king (reference 0),
a white king (reference 1), two white rooks (references 2 and 3), the
kingside rights object (reference 0, both flags already cleared) and
the queenside rights object (reference 1, white still castling-ready). -/
def searchHeap0 : SearchHeap :=
  ⟨[⟨.king, .black⟩, ⟨.king, .white⟩, ⟨.rook, .white⟩, ⟨.rook, .white⟩],
   [⟨false, false⟩, ⟨true, false⟩]⟩

/-- Search fixture, black to move: black king h7 in check from the rook
on h1 with the single legal move h8; white king e1 queenside
castling-ready, rooks g1 and h1. -/
def c6FixtureR : RGameState :=
  ⟨[[none, none, none, none, none, none, none, none],
    [none, none, none, none, none, none, none, some 0],
    [none, none, none, none, none, none, none, none],
    [none, none, none, none, none, none, none, none],
    [none, none, none, none, none, none, none, none],
    [none, none, none, none, none, none, none, none],
    [none, none, none, none, none, none, none, none],
    [none, none, none, none, some 1, none, some 2, some 3]],
   .black, [], false, false, false, 0, 1, none⟩

/-- Search fixture, white to move: the same position after black played
h7-h8.  Every white king move mates; the early king moves clear the
shared rights objects, after which the enumerated queenside castle no
longer applies. -/
def c5FixtureR : RGameState :=
  ⟨[[none, none, none, none, none, none, none, some 0],
    [none, none, none, none, none, none, none, none],
    [none, none, none, none, none, none, none, none],
    [none, none, none, none, none, none, none, none],
    [none, none, none, none, none, none, none, none],
    [none, none, none, none, none, none, none, none],
    [none, none, none, none, none, none, none, none],
    [none, none, none, none, some 1, none, some 2, some 3]],
   .white, [], false, false, false, 0, 1, none⟩

/-!
Concrete fixture states used by counterexamples.
-/

/-- Position after 1. e2e4 (white pawn two squares). -/
def c1s1 : GameState := (makeMove createInitialGameState ⟨6, 4⟩ ⟨4, 4⟩).2

/-- Position after 1. e2e4 e7e5. -/
def c1s2 : GameState := (makeMove c1s1 ⟨1, 4⟩ ⟨3, 4⟩).2

/-- Position after 1. e2e4 e7e5 2. Qd1h5: the white queen eyes e8 along
the h5-e8 diagonal, currently blocked by the black pawn on f7. -/
def c1s3 : GameState := (makeMove c1s2 ⟨7, 3⟩ ⟨3, 7⟩).2

/-- Position after 1. e2e4 e7e5 2. Qd1h5 f7f6: black has moved the
blocking pawn and the black king is attacked by the queen. -/
def c1s4 : GameState := (makeMove c1s3 ⟨1, 5⟩ ⟨2, 5⟩).2

/-- A state with the white king on its home square e1, full castling
rights, empty intervening squares and no rook anywhere: only the two
kings are on the board. -/
def rooklessCastleState : GameState :=
  ⟨[ [some ⟨.king, .black⟩, none, none, none, none, none, none, none],
     [none, none, none, none, none, none, none, none],
     [none, none, none, none, none, none, none, none],
     [none, none, none, none, none, none, none, none],
     [none, none, none, none, none, none, none, none],
     [none, none, none, none, none, none, none, none],
     [none, none, none, none, none, none, none, none],
     [none, none, none, none, some ⟨.king, .white⟩, none, none, none] ],
    .white, [], false, false, false, ⟨true, true⟩, ⟨true, true⟩, none⟩

/-- A position with a white pawn on b2, one step from promotion, and
the two kings far apart. -/
def promoFixtureState : GameState :=
  ⟨[ [none, none, none, none, none, none, none, some ⟨.king, .black⟩],
     [none, some ⟨.pawn, .white⟩, none, none, none, none, none, none],
     [none, none, none, none, none, none, none, none],
     [none, none, none, none, none, none, none, none],
     [none, none, none, none, none, none, none, none],
     [none, none, none, none, none, none, none, none],
     [none, none, none, none, none, none, none, none],
     [none, none, none, none, some ⟨.king, .white⟩, none, none, none] ],
    .white, [], false, false, false, ⟨true, true⟩, ⟨true, true⟩, none⟩

/-- A position where white mates in one: the rook lift b2-b8 delivers a
back-rank mate against the cornered black king. -/
def c6FixtureState : GameState :=
  ⟨[ [none, none, none, none, none, none, none, some ⟨.king, .black⟩],
     [some ⟨.rook, .white⟩, none, none, none, none, none, none, none],
     [none, none, none, none, none, none, none, none],
     [none, none, none, none, none, none, none, none],
     [none, none, none, none, none, none, none, none],
     [none, none, none, none, none, none, none, none],
     [none, some ⟨.rook, .white⟩, none, none, none, none, none, none],
     [none, none, none, none, some ⟨.king, .white⟩, none, none, none] ],
    .white, [], false, false, false, ⟨true, true⟩, ⟨true, true⟩, none⟩

/-- The 8 by 8 well-formedness of a board, true of every board the
engine constructs. -/
def boardOK (b : Board) : Bool :=
  b.length == 8 && b.all (fun row => row.length == 8)

/-- No pawn stands on row 0 or row 7. -/
def noPawnOnFinalRanks (b : Board) : Bool :=
  allSquares.all (fun sq =>
    !(decide (sq.row = 0 ∨ sq.row = 7)) ||
      (match boardGet b sq.row sq.col with
        | some pc => decide (pc.type ≠ .pawn)
        | none => true))

/-!
General helper lemmas.
-/

theorem positionsEqual_iff {p q : Position} : positionsEqual p q = true ↔ p = q := by
  cases p; cases q
  simp [positionsEqual, Position.mk.injEq]

theorem any_positionsEqual_iff {L : List Position} {t : Position} :
    (L.any fun pos => positionsEqual pos t) = true ↔ t ∈ L := by
  rw [List.any_eq_true]
  constructor
  · rintro ⟨x, hx, hpe⟩
    rwa [positionsEqual_iff.mp hpe] at hx
  · intro ht
    exact ⟨t, ht, positionsEqual_iff.mpr rfl⟩

theorem pair_of_fst_true {p : Bool × GameState} (h : p.1 = true) : p = (true, p.2) := by
  cases p
  simp_all

/-- makeMove rejects when the origin square is empty. -/
theorem makeMove_empty {s : GameState} {f t : Position}
    (h : boardGet s.board f.row f.col = none) : makeMove s f t = (false, s) := by
  unfold makeMove
  rw [h]

/-- makeMove rejects when the piece does not belong to the side to move. -/
theorem makeMove_wrongColor {s : GameState} {f t : Position} {p : Piece}
    (h : boardGet s.board f.row f.col = some p)
    (hc : p.color ≠ s.currentPlayer) : makeMove s f t = (false, s) := by
  unfold makeMove
  rw [h]
  simp [hc]

/-- makeMove rejects when the destination is not offered. -/
theorem makeMove_notOffered {s : GameState} {f t : Position} {p : Piece}
    (h : boardGet s.board f.row f.col = some p)
    (hc : p.color = s.currentPlayer)
    (hm : t ∉ getPossibleMoves s f) : makeMove s f t = (false, s) := by
  have hA : ((getPossibleMoves s f).any fun pos => positionsEqual pos t) = false :=
    Bool.eq_false_iff.mpr (fun hT => hm (any_positionsEqual_iff.mp hT))
  unfold makeMove
  rw [h]
  simp [hc, hA]

/-- makeMove succeeds exactly on the else-branch, running the full
update pipeline. -/
theorem makeMove_success {s : GameState} {f t : Position} {p : Piece}
    (h : boardGet s.board f.row f.col = some p)
    (hc : p.color = s.currentPlayer)
    (hm : t ∈ getPossibleMoves s f) :
    makeMove s f t = (true, makeMoveBody s f t p) := by
  have hA : ((getPossibleMoves s f).any fun pos => positionsEqual pos t) = true :=
    any_positionsEqual_iff.mpr hm
  unfold makeMove
  rw [h]
  simp [hc, hA]

/-- If makeMove reports success, the three entry conditions held. -/
theorem makeMove_success_inv {s : GameState} {f t : Position}
    (h : (makeMove s f t).1 = true) :
    ∃ p, boardGet s.board f.row f.col = some p ∧ p.color = s.currentPlayer ∧
      t ∈ getPossibleMoves s f ∧ makeMove s f t = (true, makeMoveBody s f t p) := by
  cases hg : boardGet s.board f.row f.col with
  | none => rw [makeMove_empty hg] at h; exact absurd h (by simp)
  | some p =>
    by_cases hc : p.color = s.currentPlayer
    · by_cases hm : t ∈ getPossibleMoves s f
      · exact ⟨p, rfl, hc, hm, makeMove_success hg hc hm⟩
      · rw [makeMove_notOffered hg hc hm] at h; exact absurd h (by simp)
    · rw [makeMove_wrongColor hg hc] at h; exact absurd h (by simp)

/-- makeMove with a false first component returns the state unchanged. -/
theorem makeMove_fst_false {s : GameState} {f t : Position}
    (h : (makeMove s f t).1 = false) : makeMove s f t = (false, s) := by
  cases hg : boardGet s.board f.row f.col with
  | none => exact makeMove_empty hg
  | some p =>
    by_cases hc : p.color = s.currentPlayer
    · by_cases hm : t ∈ getPossibleMoves s f
      · rw [makeMove_success hg hc hm] at h; cases h
      · exact makeMove_notOffered hg hc hm
    · exact makeMove_wrongColor hg hc

/-!
Board access and update algebra.
-/

theorem boardGet_neg {b : Board} {r c : Int} (h : ¬(0 ≤ r ∧ 0 ≤ c)) :
    boardGet b r c = none := by
  unfold boardGet
  rw [if_neg h]

theorem boardGet_some_valid {b : Board} {r c : Int} {p : Piece}
    (hok : boardOK b = true) (h : boardGet b r c = some p) :
    0 ≤ r ∧ r < 8 ∧ 0 ≤ c ∧ c < 8 := by
  unfold boardOK at hok
  rw [Bool.and_eq_true, beq_iff_eq, List.all_eq_true] at hok
  obtain ⟨hlen, hrows⟩ := hok
  unfold boardGet at h
  by_cases hg : 0 ≤ r ∧ 0 ≤ c
  · rw [if_pos hg] at h
    have hr : r.toNat < b.length := by
      by_contra hcon
      rw [List.getD_eq_default _ _ (Nat.le_of_not_lt hcon)] at h
      simp [List.getD] at h
    have hrowmem : b.getD r.toNat [] ∈ b := by
      rw [List.getD_eq_getElem?_getD, List.getElem?_eq_getElem hr]
      exact List.getElem_mem hr
    have hrowlen : (b.getD r.toNat []).length = 8 := by
      have := hrows _ hrowmem
      rwa [beq_iff_eq] at this
    have hc2 : c.toNat < (b.getD r.toNat []).length := by
      by_contra hcon
      rw [List.getD_eq_default _ _ (Nat.le_of_not_lt hcon)] at h
      cases h
    rw [hlen] at hr
    rw [hrowlen] at hc2
    omega
  · rw [if_neg hg] at h
    cases h

theorem boardOK_boardSet {b : Board} {r c : Int} {v : Option Piece}
    (hok : boardOK b = true) : boardOK (boardSet b r c v) = true := by
  unfold boardSet
  by_cases hg : 0 ≤ r ∧ 0 ≤ c
  · rw [if_pos hg]
    unfold boardOK at hok ⊢
    rw [Bool.and_eq_true, beq_iff_eq, List.all_eq_true] at hok
    obtain ⟨hlen, hrows⟩ := hok
    rw [Bool.and_eq_true, beq_iff_eq, List.all_eq_true, List.length_set]
    refine ⟨hlen, ?_⟩
    by_cases hr : r.toNat < b.length
    · intro row hrow
      rcases List.mem_or_eq_of_mem_set hrow with hmem | heq
      · exact hrows row hmem
      · subst heq
        rw [beq_iff_eq, List.length_set]
        have hmemD : b.getD r.toNat [] ∈ b := by
          rw [List.getD_eq_getElem?_getD, List.getElem?_eq_getElem hr]
          exact List.getElem_mem hr
        have := hrows _ hmemD
        rwa [beq_iff_eq] at this
    · rw [List.set_eq_of_length_le (Nat.le_of_not_lt hr)]
      intro row hrow
      exact hrows row hrow
  · rw [if_neg hg]; exact hok

theorem getD_set_eq {α : Type} (l : List α) {i : Nat} (a d : α)
    (h : i < l.length) : (l.set i a).getD i d = a := by
  rw [List.getD_eq_getElem?_getD, List.getElem?_set, if_pos rfl, if_pos h]
  rfl

theorem getD_set_ne {α : Type} (l : List α) {i j : Nat} (a d : α)
    (h : i ≠ j) : (l.set i a).getD j d = l.getD j d := by
  rw [List.getD_eq_getElem?_getD, List.getElem?_set, if_neg h,
    ← List.getD_eq_getElem?_getD]

theorem getD_set_cases {α : Type} (l : List α) (i j : Nat) (a d : α) :
    (l.set i a).getD j d = l.getD j d ∨ (l.set i a).getD j d = a := by
  by_cases hij : i = j
  · subst hij
    by_cases hi : i < l.length
    · exact Or.inr (getD_set_eq l a d hi)
    · rw [List.set_eq_of_length_le (Nat.le_of_not_lt hi)]
      exact Or.inl rfl
  · exact Or.inl (getD_set_ne l a d hij)

theorem boardGet_boardSet_self {b : Board} {r c : Int} {v : Option Piece}
    (hok : boardOK b = true) (h : 0 ≤ r ∧ r < 8 ∧ 0 ≤ c ∧ c < 8) :
    boardGet (boardSet b r c v) r c = v := by
  unfold boardOK at hok
  rw [Bool.and_eq_true, beq_iff_eq, List.all_eq_true] at hok
  obtain ⟨hlen, hrows⟩ := hok
  have hr : r.toNat < b.length := by omega
  have hrowlen : (b.getD r.toNat []).length = 8 := by
    have hmemD : b.getD r.toNat [] ∈ b := by
      rw [List.getD_eq_getElem?_getD, List.getElem?_eq_getElem hr]
      exact List.getElem_mem hr
    have := hrows _ hmemD
    rwa [beq_iff_eq] at this
  have hc : c.toNat < (b.getD r.toNat []).length := by omega
  unfold boardGet boardSet
  rw [if_pos ⟨h.1, h.2.2.1⟩, if_pos ⟨h.1, h.2.2.1⟩]
  rw [getD_set_eq _ _ _ hr, getD_set_eq _ _ _ hc]

theorem boardGet_boardSet_ne {b : Board} {r c r2 c2 : Int} {v : Option Piece}
    (hne : r ≠ r2 ∨ c ≠ c2) :
    boardGet (boardSet b r c v) r2 c2 = boardGet b r2 c2 := by
  unfold boardSet
  by_cases hg : 0 ≤ r ∧ 0 ≤ c
  · rw [if_pos hg]
    by_cases hg2 : 0 ≤ r2 ∧ 0 ≤ c2
    · unfold boardGet
      rw [if_pos hg2, if_pos hg2]
      by_cases hrr : r.toNat = r2.toNat
      · have hreq : r = r2 := by omega
        have hcne : c ≠ c2 := by
          rcases hne with h | h
          · exact absurd hreq h
          · exact h
        have hccne : c.toNat ≠ c2.toNat := by omega
        rcases getD_set_cases b r.toNat r2.toNat
            ((b.getD r.toNat []).set c.toNat v) [] with hcase | hcase
        · rw [hcase]
        · rw [hcase, getD_set_ne _ _ _ hccne, hrr]
      · rw [getD_set_ne _ _ _ hrr]
    · rw [boardGet_neg hg2, boardGet_neg hg2]
  · rw [if_neg hg]

theorem boardGet_boardSet_cases {b : Board} {r c r2 c2 : Int} {v : Option Piece} :
    boardGet (boardSet b r c v) r2 c2 = boardGet b r2 c2 ∨
    boardGet (boardSet b r c v) r2 c2 = v := by
  by_cases hne : r ≠ r2 ∨ c ≠ c2
  · exact Or.inl (boardGet_boardSet_ne hne)
  · push_neg at hne
    obtain ⟨hr, hc⟩ := hne
    subst hr; subst hc
    by_cases hg : 0 ≤ r ∧ 0 ≤ c
    · have hset : boardSet b r c v =
          b.set r.toNat ((b.getD r.toNat []).set c.toNat v) := by
        unfold boardSet
        rw [if_pos hg]
      rw [hset]
      unfold boardGet
      rw [if_pos hg, if_pos hg]
      rcases getD_set_cases b r.toNat r.toNat
          ((b.getD r.toNat []).set c.toNat v) [] with hcase | hcase
      · rw [hcase]
        exact Or.inl rfl
      · rw [hcase]
        rcases getD_set_cases (b.getD r.toNat []) c.toNat c.toNat v none with h2 | h2
        · rw [h2]
          exact Or.inl rfl
        · rw [h2]
          exact Or.inr rfl
    · have hset : boardSet b r c v = b := by
        unfold boardSet
        rw [if_neg hg]
      rw [hset]
      exact Or.inl rfl

/-!
Frame lemmas for the makeMove update pipeline.
-/

theorem hsm_toSq (s : GameState) (m : Move) :
    (handleSpecialMoves s m).2.toSq = m.toSq := by
  simp only [handleSpecialMoves]
  split_ifs <;> rfl

theorem hsm_fromSq (s : GameState) (m : Move) :
    (handleSpecialMoves s m).2.fromSq = m.fromSq := by
  simp only [handleSpecialMoves]
  split_ifs <;> rfl

theorem hsm_piece (s : GameState) (m : Move) :
    (handleSpecialMoves s m).2.piece =
      (if m.piece.type = .pawn ∧ (m.toSq.row = 0 ∨ m.toSq.row = 7) then
        (⟨.queen, m.piece.color⟩ : Piece) else m.piece) := by
  simp only [handleSpecialMoves]
  split_ifs <;> rfl

theorem hsm_currentPlayer (s : GameState) (m : Move) :
    (handleSpecialMoves s m).1.currentPlayer = s.currentPlayer := by
  simp only [handleSpecialMoves]
  split_ifs <;> rfl

theorem hsm_enPassantTarget (s : GameState) (m : Move) :
    (handleSpecialMoves s m).1.enPassantTarget = s.enPassantTarget := by
  simp only [handleSpecialMoves]
  split_ifs <;> rfl

theorem hsm_moveHistory (s : GameState) (m : Move) :
    (handleSpecialMoves s m).1.moveHistory = s.moveHistory := by
  simp only [handleSpecialMoves]
  split_ifs <;> rfl

theorem hsm_canCastleKingSide (s : GameState) (m : Move) :
    (handleSpecialMoves s m).1.canCastleKingSide = s.canCastleKingSide := by
  simp only [handleSpecialMoves]
  split_ifs <;> rfl

theorem hsm_canCastleQueenSide (s : GameState) (m : Move) :
    (handleSpecialMoves s m).1.canCastleQueenSide = s.canCastleQueenSide := by
  simp only [handleSpecialMoves]
  split_ifs <;> rfl

/-- The board produced by handleSpecialMoves when the moved piece is a
king moving two columns: the rook relocation (the content of the rook
origin square, whatever it is, is copied to the rook destination and the
origin cleared). -/
theorem hsm_board_castle (s : GameState) (m : Move)
    (hk : m.piece.type = .king)
    (h2 : (m.toSq.col - m.fromSq.col).natAbs = 2) :
    (handleSpecialMoves s m).1.board =
      boardSet
        (boardSet s.board m.fromSq.row (if m.fromSq.col < m.toSq.col then 5 else 3)
          (boardGet s.board m.fromSq.row (if m.fromSq.col < m.toSq.col then 7 else 0)))
        m.fromSq.row (if m.fromSq.col < m.toSq.col then 7 else 0) none := by
  have hnp : ¬ m.piece.type = .pawn := by rw [hk]; intro h; cases h
  simp only [handleSpecialMoves]
  rw [if_neg (fun hcon => hnp hcon.1)]
  rw [if_neg (fun hcon => hnp hcon.1)]
  rw [if_pos ⟨hk, h2⟩]

/-- The board produced by handleSpecialMoves when the move is not a
castling king move: only the en-passant branch can touch it. -/
theorem hsm_board_noncastle (s : GameState) (m : Move)
    (h : ¬(m.piece.type = .king ∧ (m.toSq.col - m.fromSq.col).natAbs = 2)) :
    (handleSpecialMoves s m).1.board =
      (if m.piece.type = .pawn ∧
          (match s.enPassantTarget with
            | some ep => positionsEqual m.toSq ep
            | none => false) = true then
        boardSet s.board
          (if m.piece.color = .white then m.toSq.row + 1 else m.toSq.row - 1)
          m.toSq.col none
      else s.board) := by
  simp only [handleSpecialMoves]
  rw [if_neg h]
  dsimp only
  split_ifs <;> rfl

theorem uep_enPassantTarget (s : GameState) (m : Move) :
    (updateEnPassantTarget s m).enPassantTarget =
      (if m.piece.type = .pawn ∧ (m.toSq.row - m.fromSq.row).natAbs = 2 then
        some ⟨(m.fromSq.row + m.toSq.row) / 2, m.fromSq.col⟩ else none) := by
  simp only [updateEnPassantTarget]
  split_ifs <;> rfl

theorem uep_board (s : GameState) (m : Move) :
    (updateEnPassantTarget s m).board = s.board := by
  simp only [updateEnPassantTarget]
  split_ifs <;> rfl

theorem uep_currentPlayer (s : GameState) (m : Move) :
    (updateEnPassantTarget s m).currentPlayer = s.currentPlayer := by
  simp only [updateEnPassantTarget]
  split_ifs <;> rfl

theorem uep_canCastleKingSide (s : GameState) (m : Move) :
    (updateEnPassantTarget s m).canCastleKingSide = s.canCastleKingSide := by
  simp only [updateEnPassantTarget]
  split_ifs <;> rfl

theorem uep_canCastleQueenSide (s : GameState) (m : Move) :
    (updateEnPassantTarget s m).canCastleQueenSide = s.canCastleQueenSide := by
  simp only [updateEnPassantTarget]
  split_ifs <;> rfl

theorem uep_moveHistory (s : GameState) (m : Move) :
    (updateEnPassantTarget s m).moveHistory = s.moveHistory := by
  simp only [updateEnPassantTarget]
  split_ifs <;> rfl

theorem ucr_board (s : GameState) (m : Move) :
    (updateCastlingRights s m).board = s.board := by
  simp only [updateCastlingRights]
  split_ifs <;> rfl

theorem ucr_enPassantTarget (s : GameState) (m : Move) :
    (updateCastlingRights s m).enPassantTarget = s.enPassantTarget := by
  simp only [updateCastlingRights]
  split_ifs <;> rfl

theorem ucr_currentPlayer (s : GameState) (m : Move) :
    (updateCastlingRights s m).currentPlayer = s.currentPlayer := by
  simp only [updateCastlingRights]
  split_ifs <;> rfl

theorem ucr_moveHistory (s : GameState) (m : Move) :
    (updateCastlingRights s m).moveHistory = s.moveHistory := by
  simp only [updateCastlingRights]
  split_ifs <;> rfl

/-- updateCastlingRights never sets a rights flag to true. -/
theorem ucr_monotone (s : GameState) (m : Move) :
    ((updateCastlingRights s m).canCastleKingSide.white = true →
      s.canCastleKingSide.white = true) ∧
    ((updateCastlingRights s m).canCastleKingSide.black = true →
      s.canCastleKingSide.black = true) ∧
    ((updateCastlingRights s m).canCastleQueenSide.white = true →
      s.canCastleQueenSide.white = true) ∧
    ((updateCastlingRights s m).canCastleQueenSide.black = true →
      s.canCastleQueenSide.black = true) := by
  simp only [updateCastlingRights]
  split_ifs <;> simp_all

theorem ugs_board (s : GameState) :
    (updateGameStatus s).board = s.board := by
  simp only [updateGameStatus]
  split_ifs <;> rfl

theorem ugs_currentPlayer (s : GameState) :
    (updateGameStatus s).currentPlayer = s.currentPlayer := by
  simp only [updateGameStatus]
  split_ifs <;> rfl

theorem ugs_enPassantTarget (s : GameState) :
    (updateGameStatus s).enPassantTarget = s.enPassantTarget := by
  simp only [updateGameStatus]
  split_ifs <;> rfl

theorem ugs_canCastleKingSide (s : GameState) :
    (updateGameStatus s).canCastleKingSide = s.canCastleKingSide := by
  simp only [updateGameStatus]
  split_ifs <;> rfl

theorem ugs_canCastleQueenSide (s : GameState) :
    (updateGameStatus s).canCastleQueenSide = s.canCastleQueenSide := by
  simp only [updateGameStatus]
  split_ifs <;> rfl

theorem ugs_moveHistory (s : GameState) :
    (updateGameStatus s).moveHistory = s.moveHistory := by
  simp only [updateGameStatus]
  split_ifs <;> rfl

/-!
Membership lemmas for the move generators.
-/

theorem mem_ray_valid {board : Board} {myColor : Color} {dr dc : Int}
    {q : Position} : ∀ {cur : Position} {n : Nat},
    q ∈ ray board myColor dr dc cur n → isValidPosition q = true := by
  intro cur n
  induction n generalizing cur with
  | zero => intro h; cases h
  | succ k ih =>
    intro h
    rw [ray] at h
    split_ifs at h with hv
    · rcases hb : boardGet board (cur.row + dr) (cur.col + dc) with _ | piece <;>
        rw [hb] at h <;> dsimp only at h
      · rcases List.mem_cons.mp h with heq | hrec
        · subst heq; exact hv
        · exact ih hrec
      · split_ifs at h
        · rcases List.mem_singleton.mp h with heq
          subst heq; exact hv
        · cases h
    · cases h

/-- Decomposition of membership in getPawnMoves: every destination is
in bounds, and is the one-step or guarded two-step forward push, or a
diagonal onto an enemy-occupied square or onto the en-passant target. -/
theorem mem_getPawnMoves {board : Board} {ep : Option Position}
    {f : Position} {c : Color} {t : Position}
    (h : t ∈ getPawnMoves board ep f c) :
    isValidPosition t = true ∧
    ((t.col = f.col ∧
      (t.row = f.row + (if c = .white then (-1 : Int) else 1) ∨
        (t.row = f.row + 2 * (if c = .white then (-1 : Int) else 1) ∧
          f.row = (if c = .white then (6 : Int) else 1)))) ∨
     ((t.col = f.col - 1 ∨ t.col = f.col + 1) ∧
       t.row = f.row + (if c = .white then (-1 : Int) else 1) ∧
       ((∃ tp, boardGet board t.row t.col = some tp ∧ tp.color ≠ c) ∨
         ep = some t))) := by
  cases c
  case white =>
    simp only [getPawnMoves] at h
    simp only [eq_self_iff_true, if_true] at h ⊢
    rw [List.mem_append, List.mem_append] at h
    rcases h with (h | h) | h
    · split_ifs at h with h1 h2
      · rw [Bool.and_eq_true] at h1
        rcases List.mem_cons.mp h with heq | h
        · subst heq
          exact ⟨h1.1, Or.inl ⟨rfl, Or.inl rfl⟩⟩
        · rcases List.mem_singleton.mp h with heq
          subst heq
          obtain ⟨hsr, h2v⟩ := h2
          rw [Bool.and_eq_true] at h2v
          exact ⟨h2v.1, Or.inl ⟨rfl, Or.inr ⟨rfl, hsr⟩⟩⟩
      · rw [Bool.and_eq_true] at h1
        rcases List.mem_singleton.mp h with heq
        subst heq
        exact ⟨h1.1, Or.inl ⟨rfl, Or.inl rfl⟩⟩
      · cases h
    · split_ifs at h with hv
      · rw [List.mem_append] at h
        rcases h with h | h
        · rcases hb : boardGet board (f.row + (-1 : Int)) (f.col - 1) with _ | target <;>
            rw [hb] at h <;> dsimp only at h
          · cases h
          · split_ifs at h with hcol
            · rcases List.mem_singleton.mp h with heq
              subst heq
              exact ⟨hv, Or.inr ⟨Or.inl rfl, rfl, Or.inl ⟨target, hb, hcol⟩⟩⟩
            · cases h
        · rcases hept : ep with _ | e <;> rw [hept] at h <;> dsimp only at h
          · cases h
          · split_ifs at h with hpe
            · rcases List.mem_singleton.mp h with heq
              subst heq
              rw [positionsEqual_iff] at hpe
              exact ⟨hv, Or.inr ⟨Or.inl rfl, rfl, Or.inr (by rw [hpe])⟩⟩
            · cases h
      · cases h
    · split_ifs at h with hv
      · rw [List.mem_append] at h
        rcases h with h | h
        · rcases hb : boardGet board (f.row + (-1 : Int)) (f.col + 1) with _ | target <;>
            rw [hb] at h <;> dsimp only at h
          · cases h
          · split_ifs at h with hcol
            · rcases List.mem_singleton.mp h with heq
              subst heq
              exact ⟨hv, Or.inr ⟨Or.inr rfl, rfl, Or.inl ⟨target, hb, hcol⟩⟩⟩
            · cases h
        · rcases hept : ep with _ | e <;> rw [hept] at h <;> dsimp only at h
          · cases h
          · split_ifs at h with hpe
            · rcases List.mem_singleton.mp h with heq
              subst heq
              rw [positionsEqual_iff] at hpe
              exact ⟨hv, Or.inr ⟨Or.inr rfl, rfl, Or.inr (by rw [hpe])⟩⟩
            · cases h
      · cases h
  case black =>
    simp only [getPawnMoves] at h
    simp only [eq_false (by decide : ¬(Color.black = Color.white)), if_false] at h ⊢
    rw [List.mem_append, List.mem_append] at h
    rcases h with (h | h) | h
    · split_ifs at h with h1 h2
      · rw [Bool.and_eq_true] at h1
        rcases List.mem_cons.mp h with heq | h
        · subst heq
          exact ⟨h1.1, Or.inl ⟨rfl, Or.inl rfl⟩⟩
        · rcases List.mem_singleton.mp h with heq
          subst heq
          obtain ⟨hsr, h2v⟩ := h2
          rw [Bool.and_eq_true] at h2v
          exact ⟨h2v.1, Or.inl ⟨rfl, Or.inr ⟨rfl, hsr⟩⟩⟩
      · rw [Bool.and_eq_true] at h1
        rcases List.mem_singleton.mp h with heq
        subst heq
        exact ⟨h1.1, Or.inl ⟨rfl, Or.inl rfl⟩⟩
      · cases h
    · split_ifs at h with hv
      · rw [List.mem_append] at h
        rcases h with h | h
        · rcases hb : boardGet board (f.row + (1 : Int)) (f.col - 1) with _ | target <;>
            rw [hb] at h <;> dsimp only at h
          · cases h
          · split_ifs at h with hcol
            · rcases List.mem_singleton.mp h with heq
              subst heq
              exact ⟨hv, Or.inr ⟨Or.inl rfl, rfl, Or.inl ⟨target, hb, hcol⟩⟩⟩
            · cases h
        · rcases hept : ep with _ | e <;> rw [hept] at h <;> dsimp only at h
          · cases h
          · split_ifs at h with hpe
            · rcases List.mem_singleton.mp h with heq
              subst heq
              rw [positionsEqual_iff] at hpe
              exact ⟨hv, Or.inr ⟨Or.inl rfl, rfl, Or.inr (by rw [hpe])⟩⟩
            · cases h
      · cases h
    · split_ifs at h with hv
      · rw [List.mem_append] at h
        rcases h with h | h
        · rcases hb : boardGet board (f.row + (1 : Int)) (f.col + 1) with _ | target <;>
            rw [hb] at h <;> dsimp only at h
          · cases h
          · split_ifs at h with hcol
            · rcases List.mem_singleton.mp h with heq
              subst heq
              exact ⟨hv, Or.inr ⟨Or.inr rfl, rfl, Or.inl ⟨target, hb, hcol⟩⟩⟩
            · cases h
        · rcases hept : ep with _ | e <;> rw [hept] at h <;> dsimp only at h
          · cases h
          · split_ifs at h with hpe
            · rcases List.mem_singleton.mp h with heq
              subst heq
              rw [positionsEqual_iff] at hpe
              exact ⟨hv, Or.inr ⟨Or.inr rfl, rfl, Or.inr (by rw [hpe])⟩⟩
            · cases h
      · cases h

/-!
Composition lemmas for makeMoveBody, and decomposition of
getPossibleMoves and getKingMoves membership.
-/

theorem makeMoveBody_board (s : GameState) (f t : Position) (p : Piece) :
    (makeMoveBody s f t p).board =
      boardSet
        (boardSet
          (handleSpecialMoves s ⟨f, t, p, boardGet s.board t.row t.col, false, false, none⟩).1.board
          t.row t.col
          (some (handleSpecialMoves s ⟨f, t, p, boardGet s.board t.row t.col, false, false, none⟩).2.piece))
        f.row f.col none := by
  simp only [makeMoveBody, ugs_board, uep_board, ucr_board]

theorem makeMoveBody_enPassantTarget (s : GameState) (f t : Position) (p : Piece) :
    (makeMoveBody s f t p).enPassantTarget =
      (if (handleSpecialMoves s ⟨f, t, p, boardGet s.board t.row t.col, false, false, none⟩).2.piece.type = .pawn ∧
          (t.row - f.row).natAbs = 2 then
        some ⟨(f.row + t.row) / 2, f.col⟩ else none) := by
  simp only [makeMoveBody, ugs_enPassantTarget, uep_enPassantTarget, ucr_enPassantTarget,
    hsm_toSq, hsm_fromSq]

theorem makeMoveBody_currentPlayer (s : GameState) (f t : Position) (p : Piece) :
    (makeMoveBody s f t p).currentPlayer = otherColor s.currentPlayer := by
  simp only [makeMoveBody, ugs_currentPlayer, uep_currentPlayer, ucr_currentPlayer]
  rw [hsm_currentPlayer]

theorem makeMoveBody_rights_mono (s : GameState) (f t : Position) (p : Piece) :
    ((makeMoveBody s f t p).canCastleKingSide.white = true →
      s.canCastleKingSide.white = true) ∧
    ((makeMoveBody s f t p).canCastleKingSide.black = true →
      s.canCastleKingSide.black = true) ∧
    ((makeMoveBody s f t p).canCastleQueenSide.white = true →
      s.canCastleQueenSide.white = true) ∧
    ((makeMoveBody s f t p).canCastleQueenSide.black = true →
      s.canCastleQueenSide.black = true) := by
  have hks := hsm_canCastleKingSide s ⟨f, t, p, boardGet s.board t.row t.col, false, false, none⟩
  have hqs := hsm_canCastleQueenSide s ⟨f, t, p, boardGet s.board t.row t.col, false, false, none⟩
  simp only [makeMoveBody, ugs_canCastleKingSide, ugs_canCastleQueenSide,
    uep_canCastleKingSide, uep_canCastleQueenSide]
  have hmono := ucr_monotone
    { (handleSpecialMoves s ⟨f, t, p, boardGet s.board t.row t.col, false, false, none⟩).1 with
      board := boardSet (boardSet (handleSpecialMoves s ⟨f, t, p, boardGet s.board t.row t.col, false, false, none⟩).1.board t.row t.col (some (handleSpecialMoves s ⟨f, t, p, boardGet s.board t.row t.col, false, false, none⟩).2.piece)) f.row f.col none,
      moveHistory := (handleSpecialMoves s ⟨f, t, p, boardGet s.board t.row t.col, false, false, none⟩).1.moveHistory ++ [(handleSpecialMoves s ⟨f, t, p, boardGet s.board t.row t.col, false, false, none⟩).2] }
    (handleSpecialMoves s ⟨f, t, p, boardGet s.board t.row t.col, false, false, none⟩).2
  refine ⟨fun hw => ?_, fun hb => ?_, fun hw => ?_, fun hb => ?_⟩
  · have := hmono.1 hw
    rwa [hks] at this
  · have := hmono.2.1 hb
    rwa [hks] at this
  · have := hmono.2.2.1 hw
    rwa [hqs] at this
  · have := hmono.2.2.2 hb
    rwa [hqs] at this

/-- Every element of getPossibleMoves comes from the pseudo-legal
generator for the piece found at the origin, which belongs to the side
to move. -/
theorem mem_getPossibleMoves_decomp {s : GameState} {f t : Position}
    (h : t ∈ getPossibleMoves s f) :
    ∃ p, boardGet s.board f.row f.col = some p ∧ p.color = s.currentPlayer ∧
      t ∈ calculateLegalMoves s.board s.enPassantTarget s.canCastleKingSide
        s.canCastleQueenSide f p := by
  unfold getPossibleMoves at h
  cases hg : boardGet s.board f.row f.col with
  | none => rw [hg] at h; cases h
  | some p =>
    rw [hg] at h
    dsimp only at h
    by_cases hc : p.color = s.currentPlayer
    · rw [if_neg (by rw [hc]; exact fun hcon => hcon rfl)] at h
      exact ⟨p, rfl, hc, (List.mem_filter.mp h).1⟩
    · rw [if_pos hc] at h
      cases h

/-- A king destination two columns away from the origin can only come
from the castling block: the king stands on its home square, the
corresponding rights flag is set and the intervening squares are empty.
The presence of a rook on the corner square is not among the
conditions. -/
theorem mem_getKingMoves_two {board : Board} {ks qs : SideFlags}
    {f : Position} {c : Color} {t : Position}
    (h : t ∈ getKingMoves board ks qs f c)
    (h2 : (t.col - f.col).natAbs = 2) :
    (c = .white ∧ f = ⟨7, 4⟩ ∧
      ((t = ⟨7, 6⟩ ∧ ks.white = true ∧ boardGet board 7 5 = none ∧
          boardGet board 7 6 = none) ∨
       (t = ⟨7, 2⟩ ∧ qs.white = true ∧ boardGet board 7 3 = none ∧
          boardGet board 7 2 = none ∧ boardGet board 7 1 = none))) ∨
    (c = .black ∧ f = ⟨0, 4⟩ ∧
      ((t = ⟨0, 6⟩ ∧ ks.black = true ∧ boardGet board 0 5 = none ∧
          boardGet board 0 6 = none) ∨
       (t = ⟨0, 2⟩ ∧ qs.black = true ∧ boardGet board 0 3 = none ∧
          boardGet board 0 2 = none ∧ boardGet board 0 1 = none))) := by
  simp only [getKingMoves] at h
  rw [List.mem_append] at h
  rcases h with h | h
  · -- a normal king step moves at most one column
    exfalso
    rw [List.mem_filter] at h
    obtain ⟨hmap, _⟩ := h
    rw [List.mem_map] at hmap
    obtain ⟨d, hd, heq⟩ := hmap
    have hcol : t.col = f.col + d.2 := by rw [← heq]
    fin_cases hd <;> simp_all
  · -- the castling block
    by_cases hw : c = .white ∧ f.row = 7 ∧ f.col = 4
    · rw [if_pos hw] at h
      obtain ⟨hcw, hr, hc⟩ := hw
      left
      refine ⟨hcw, by cases f; simp_all, ?_⟩
      rw [List.mem_append] at h
      rcases h with h | h
      · by_cases hcond : (ks.white && (boardGet board 7 5).isNone &&
            (boardGet board 7 6).isNone) = true
        · rw [if_pos hcond] at h
          rcases List.mem_singleton.mp h with heq
          subst heq
          simp only [Bool.and_eq_true, Option.isNone_iff_eq_none] at hcond
          exact Or.inl ⟨rfl, hcond.1.1, hcond.1.2, hcond.2⟩
        · rw [if_neg hcond] at h
          cases h
      · by_cases hcond : (qs.white && (boardGet board 7 3).isNone &&
            (boardGet board 7 2).isNone && (boardGet board 7 1).isNone) = true
        · rw [if_pos hcond] at h
          rcases List.mem_singleton.mp h with heq
          subst heq
          simp only [Bool.and_eq_true, Option.isNone_iff_eq_none] at hcond
          exact Or.inr ⟨rfl, hcond.1.1.1, hcond.1.1.2, hcond.1.2, hcond.2⟩
        · rw [if_neg hcond] at h
          cases h
    · rw [if_neg hw] at h
      by_cases hbk : c = .black ∧ f.row = 0 ∧ f.col = 4
      · rw [if_pos hbk] at h
        obtain ⟨hcb, hr, hc⟩ := hbk
        right
        refine ⟨hcb, by cases f; simp_all, ?_⟩
        rw [List.mem_append] at h
        rcases h with h | h
        · by_cases hcond : (ks.black && (boardGet board 0 5).isNone &&
              (boardGet board 0 6).isNone) = true
          · rw [if_pos hcond] at h
            rcases List.mem_singleton.mp h with heq
            subst heq
            simp only [Bool.and_eq_true, Option.isNone_iff_eq_none] at hcond
            exact Or.inl ⟨rfl, hcond.1.1, hcond.1.2, hcond.2⟩
          · rw [if_neg hcond] at h
            cases h
        · by_cases hcond : (qs.black && (boardGet board 0 3).isNone &&
              (boardGet board 0 2).isNone && (boardGet board 0 1).isNone) = true
          · rw [if_pos hcond] at h
            rcases List.mem_singleton.mp h with heq
            subst heq
            simp only [Bool.and_eq_true, Option.isNone_iff_eq_none] at hcond
            exact Or.inr ⟨rfl, hcond.1.1.1, hcond.1.1.2, hcond.1.2, hcond.2⟩
          · rw [if_neg hcond] at h
            cases h
      · rw [if_neg hbk] at h
        cases h

/-!
Claim C2: castling.  The generation condition never checks that a rook
stands on the corner square, so the claim as stated is refuted by a
state with full rights and no rook at all.  What does hold: the
two-column king destination is generated exactly under (home square,
rights flag, empty intervening squares); applying it relocates the king
and the content of the rook corner square in the same makeMove call;
and no makeMove call ever turns a rights flag back on.
-/

/-- C2 counterexample: with only the two kings on the board and all
rights flags still true, the king-side castling destination g1 is
offered to the white king although no rook stands on h1. -/
theorem c2_counterexample :
    (⟨7, 6⟩ : Position) ∈ getPossibleMoves rooklessCastleState ⟨7, 4⟩ ∧
    boardGet rooklessCastleState.board 7 7 = none ∧
    rooklessCastleState.canCastleKingSide.white = true := by
  refine ⟨by decide, by decide, by decide⟩

/-- C2 amended: (1) a two-column king destination is generated exactly
under the conditions the code checks -- king on its home square, the
rights flag of that side, and empty intervening squares (the rook
square content is not checked): part one is the only-if direction,
part two the converse, together the iff; (3) on a successful castling
makeMove the king and the content of the rook corner square are
relocated in the same call; (4) makeMove never turns a castling rights
flag from false to true. -/
theorem c2_castling_behaviour :
    (∀ (board : Board) (ks qs : SideFlags) (f : Position) (c : Color) (t : Position),
      t ∈ getKingMoves board ks qs f c → (t.col - f.col).natAbs = 2 →
      (c = .white ∧ f = ⟨7, 4⟩ ∧
        ((t = ⟨7, 6⟩ ∧ ks.white = true ∧ boardGet board 7 5 = none ∧
            boardGet board 7 6 = none) ∨
         (t = ⟨7, 2⟩ ∧ qs.white = true ∧ boardGet board 7 3 = none ∧
            boardGet board 7 2 = none ∧ boardGet board 7 1 = none))) ∨
      (c = .black ∧ f = ⟨0, 4⟩ ∧
        ((t = ⟨0, 6⟩ ∧ ks.black = true ∧ boardGet board 0 5 = none ∧
            boardGet board 0 6 = none) ∨
         (t = ⟨0, 2⟩ ∧ qs.black = true ∧ boardGet board 0 3 = none ∧
            boardGet board 0 2 = none ∧ boardGet board 0 1 = none)))) ∧
    (∀ (board : Board) (ks qs : SideFlags),
      (ks.white = true → boardGet board 7 5 = none → boardGet board 7 6 = none →
        (⟨7, 6⟩ : Position) ∈ getKingMoves board ks qs ⟨7, 4⟩ .white) ∧
      (qs.white = true → boardGet board 7 3 = none → boardGet board 7 2 = none →
        boardGet board 7 1 = none →
        (⟨7, 2⟩ : Position) ∈ getKingMoves board ks qs ⟨7, 4⟩ .white) ∧
      (ks.black = true → boardGet board 0 5 = none → boardGet board 0 6 = none →
        (⟨0, 6⟩ : Position) ∈ getKingMoves board ks qs ⟨0, 4⟩ .black) ∧
      (qs.black = true → boardGet board 0 3 = none → boardGet board 0 2 = none →
        boardGet board 0 1 = none →
        (⟨0, 2⟩ : Position) ∈ getKingMoves board ks qs ⟨0, 4⟩ .black)) ∧
    (∀ (s : GameState) (f t : Position) (p : Piece), boardOK s.board = true →
      boardGet s.board f.row f.col = some p → p.type = .king →
      (makeMove s f t).1 = true → (t.col - f.col).natAbs = 2 →
      boardGet (makeMove s f t).2.board t.row t.col = some p ∧
      boardGet (makeMove s f t).2.board f.row f.col = none ∧
      boardGet (makeMove s f t).2.board f.row (if f.col < t.col then 5 else 3) =
        boardGet s.board f.row (if f.col < t.col then 7 else 0) ∧
      boardGet (makeMove s f t).2.board f.row (if f.col < t.col then 7 else 0) = none) ∧
    (∀ (s : GameState) (f t : Position),
      ((makeMove s f t).2.canCastleKingSide.white = true →
        s.canCastleKingSide.white = true) ∧
      ((makeMove s f t).2.canCastleKingSide.black = true →
        s.canCastleKingSide.black = true) ∧
      ((makeMove s f t).2.canCastleQueenSide.white = true →
        s.canCastleQueenSide.white = true) ∧
      ((makeMove s f t).2.canCastleQueenSide.black = true →
        s.canCastleQueenSide.black = true)) := by
  refine ⟨fun board ks qs f c t h h2 => mem_getKingMoves_two h h2, ?_, ?_, ?_⟩
  · intro board ks qs
    refine ⟨fun h1 h2 h3 => ?_, fun h1 h2 h3 h4 => ?_,
      fun h1 h2 h3 => ?_, fun h1 h2 h3 h4 => ?_⟩
    · simp only [getKingMoves]
      rw [List.mem_append]
      right
      rw [if_pos (by decide), List.mem_append]
      left
      rw [if_pos (by rw [h1, h2, h3]; decide)]
      exact List.mem_singleton.mpr rfl
    · simp only [getKingMoves]
      rw [List.mem_append]
      right
      rw [if_pos (by decide), List.mem_append]
      right
      rw [if_pos (by rw [h1, h2, h3, h4]; decide)]
      exact List.mem_singleton.mpr rfl
    · simp only [getKingMoves]
      rw [List.mem_append]
      right
      rw [if_neg (by decide), if_pos (by decide), List.mem_append]
      left
      rw [if_pos (by rw [h1, h2, h3]; decide)]
      exact List.mem_singleton.mpr rfl
    · simp only [getKingMoves]
      rw [List.mem_append]
      right
      rw [if_neg (by decide), if_pos (by decide), List.mem_append]
      right
      rw [if_pos (by rw [h1, h2, h3, h4]; decide)]
      exact List.mem_singleton.mpr rfl
  · intro s f t p hok hget hking hsucc h2
    obtain ⟨p2, hget2, hc2, hmem, heq⟩ := makeMove_success_inv hsucc
    rw [hget] at hget2
    injection hget2 with hpp
    subst hpp
    obtain ⟨p3, hget3, _, hcl⟩ := mem_getPossibleMoves_decomp hmem
    rw [hget] at hget3
    injection hget3 with hpp3
    subst hpp3
    simp only [calculateLegalMoves, hking] at hcl
    have hkm := mem_getKingMoves_two hcl h2
    rw [heq]
    dsimp only
    have hmv : (⟨f, t, p, boardGet s.board t.row t.col, false, false, none⟩ : Move).piece.type
        = PieceType.king := hking
    have hb := makeMoveBody_board s f t p
    rw [hsm_board_castle _ _ hmv h2] at hb
    have hpc : (handleSpecialMoves s
        ⟨f, t, p, boardGet s.board t.row t.col, false, false, none⟩).2.piece = p := by
      rw [hsm_piece]
      rw [if_neg]
      intro hcon
      rw [hking] at hcon
      cases hcon.1
    rw [hpc] at hb
    rcases hkm with ⟨_, hf, (⟨ht, _⟩ | ⟨ht, _⟩)⟩ | ⟨_, hf, (⟨ht, _⟩ | ⟨ht, _⟩)⟩ <;>
        subst hf <;> subst ht <;>
        simp only at hb <;> norm_num at hb ⊢ <;>
        rw [hb] <;>
        refine ⟨?_, ?_, ?_, ?_⟩
    · rw [boardGet_boardSet_ne (Or.inr (by norm_num)),
        boardGet_boardSet_self (boardOK_boardSet (boardOK_boardSet hok)) (by norm_num)]
    · rw [boardGet_boardSet_self
        (boardOK_boardSet (boardOK_boardSet (boardOK_boardSet hok))) (by norm_num)]
    · rw [boardGet_boardSet_ne (Or.inr (by norm_num)),
        boardGet_boardSet_ne (Or.inr (by norm_num)),
        boardGet_boardSet_ne (Or.inr (by norm_num)),
        boardGet_boardSet_self hok (by norm_num)]
    · rw [boardGet_boardSet_ne (Or.inr (by norm_num)),
        boardGet_boardSet_ne (Or.inr (by norm_num)),
        boardGet_boardSet_self (boardOK_boardSet hok) (by norm_num)]
    · rw [boardGet_boardSet_ne (Or.inr (by norm_num)),
        boardGet_boardSet_self (boardOK_boardSet (boardOK_boardSet hok)) (by norm_num)]
    · rw [boardGet_boardSet_self
        (boardOK_boardSet (boardOK_boardSet (boardOK_boardSet hok))) (by norm_num)]
    · rw [boardGet_boardSet_ne (Or.inr (by norm_num)),
        boardGet_boardSet_ne (Or.inr (by norm_num)),
        boardGet_boardSet_ne (Or.inr (by norm_num)),
        boardGet_boardSet_self hok (by norm_num)]
    · rw [boardGet_boardSet_ne (Or.inr (by norm_num)),
        boardGet_boardSet_ne (Or.inr (by norm_num)),
        boardGet_boardSet_self (boardOK_boardSet hok) (by norm_num)]
    · rw [boardGet_boardSet_ne (Or.inr (by norm_num)),
        boardGet_boardSet_self (boardOK_boardSet (boardOK_boardSet hok)) (by norm_num)]
    · rw [boardGet_boardSet_self
        (boardOK_boardSet (boardOK_boardSet (boardOK_boardSet hok))) (by norm_num)]
    · rw [boardGet_boardSet_ne (Or.inr (by norm_num)),
        boardGet_boardSet_ne (Or.inr (by norm_num)),
        boardGet_boardSet_ne (Or.inr (by norm_num)),
        boardGet_boardSet_self hok (by norm_num)]
    · rw [boardGet_boardSet_ne (Or.inr (by norm_num)),
        boardGet_boardSet_ne (Or.inr (by norm_num)),
        boardGet_boardSet_self (boardOK_boardSet hok) (by norm_num)]
    · rw [boardGet_boardSet_ne (Or.inr (by norm_num)),
        boardGet_boardSet_self (boardOK_boardSet (boardOK_boardSet hok)) (by norm_num)]
    · rw [boardGet_boardSet_self
        (boardOK_boardSet (boardOK_boardSet (boardOK_boardSet hok))) (by norm_num)]
    · rw [boardGet_boardSet_ne (Or.inr (by norm_num)),
        boardGet_boardSet_ne (Or.inr (by norm_num)),
        boardGet_boardSet_ne (Or.inr (by norm_num)),
        boardGet_boardSet_self hok (by norm_num)]
    · rw [boardGet_boardSet_ne (Or.inr (by norm_num)),
        boardGet_boardSet_ne (Or.inr (by norm_num)),
        boardGet_boardSet_self (boardOK_boardSet hok) (by norm_num)]
  · intro s f t
    cases hb : (makeMove s f t).1
    · rw [makeMove_fst_false hb]
      exact ⟨fun h => h, fun h => h, fun h => h, fun h => h⟩
    · obtain ⟨p, _, _, _, heq⟩ := makeMove_success_inv hb
      rw [heq]
      exact makeMoveBody_rights_mono s f t p

/-- C2 amended witness: in the rookless state the engine happily
castles: the king relocates and the empty corner content is copied. -/
theorem c2_castling_behaviour_witness :
    (boardOK rooklessCastleState.board = true ∧
      boardGet rooklessCastleState.board (7 : Int) (4 : Int) = some ⟨.king, .white⟩ ∧
      (makeMove rooklessCastleState ⟨7, 4⟩ ⟨7, 6⟩).1 = true ∧
      (((6 : Int) - 4).natAbs = 2)) ∧
    ((⟨7, 6⟩ : Position) ∈ getKingMoves rooklessCastleState.board
      rooklessCastleState.canCastleKingSide rooklessCastleState.canCastleQueenSide
      ⟨7, 4⟩ .white) ∧
    (boardGet (makeMove rooklessCastleState ⟨7, 4⟩ ⟨7, 6⟩).2.board 7 6 = some ⟨.king, .white⟩ ∧
      boardGet (makeMove rooklessCastleState ⟨7, 4⟩ ⟨7, 6⟩).2.board 7 4 = none ∧
      boardGet (makeMove rooklessCastleState ⟨7, 4⟩ ⟨7, 6⟩).2.board 7
        (if (4 : Int) < 6 then 5 else 3) =
        boardGet rooklessCastleState.board 7 (if (4 : Int) < 6 then 7 else 0) ∧
      boardGet (makeMove rooklessCastleState ⟨7, 4⟩ ⟨7, 6⟩).2.board 7
        (if (4 : Int) < 6 then 7 else 0) = none) := by
  refine ⟨⟨by decide, by decide, by decide, by decide⟩, ?_, ?_⟩
  · exact (c2_castling_behaviour.2.1 rooklessCastleState.board
      rooklessCastleState.canCastleKingSide rooklessCastleState.canCastleQueenSide).1
      (by decide) (by decide) (by decide)
  · exact c2_castling_behaviour.2.2.1 rooklessCastleState ⟨7, 4⟩ ⟨7, 6⟩ ⟨.king, .white⟩
      (by decide) (by decide) (by decide) (by decide) (by decide)

/-!
Congruence: the move generators, the legality filter and the scans over
them read only the board, the current player, the en-passant target and
the castling rights of a state; the status flags and the history do not
influence them.
-/

theorem getPossibleMoves_congr {s1 s2 : GameState}
    (hb : s1.board = s2.board) (hc : s1.currentPlayer = s2.currentPlayer)
    (he : s1.enPassantTarget = s2.enPassantTarget)
    (hk : s1.canCastleKingSide = s2.canCastleKingSide)
    (hq : s1.canCastleQueenSide = s2.canCastleQueenSide) (f : Position) :
    getPossibleMoves s1 f = getPossibleMoves s2 f := by
  cases s1
  cases s2
  dsimp only at hb hc he hk hq
  subst hb; subst hc; subst he; subst hk; subst hq
  rfl

theorem hasLegalMoves_congr {s1 s2 : GameState}
    (hb : s1.board = s2.board) (hc : s1.currentPlayer = s2.currentPlayer)
    (he : s1.enPassantTarget = s2.enPassantTarget)
    (hk : s1.canCastleKingSide = s2.canCastleKingSide)
    (hq : s1.canCastleQueenSide = s2.canCastleQueenSide) (col : Color) :
    hasLegalMoves s1 col = hasLegalMoves s2 col := by
  cases s1
  cases s2
  dsimp only at hb hc he hk hq
  subst hb; subst hc; subst he; subst hk; subst hq
  rfl

theorem getAllLegalMoves_congr {s1 s2 : GameState}
    (hb : s1.board = s2.board) (hc : s1.currentPlayer = s2.currentPlayer)
    (he : s1.enPassantTarget = s2.enPassantTarget)
    (hk : s1.canCastleKingSide = s2.canCastleKingSide)
    (hq : s1.canCastleQueenSide = s2.canCastleQueenSide) (col : Color) :
    getAllLegalMoves s1 col = getAllLegalMoves s2 col := by
  cases s1
  cases s2
  dsimp only at hb hc he hk hq
  subst hb; subst hc; subst he; subst hk; subst hq
  rfl

/-!
Status update characterization and the terminal-freeze invariant.
-/

theorem mem_allSquares {p : Position} (h1 : 0 ≤ p.row) (h2 : p.row < 8)
    (h3 : 0 ≤ p.col) (h4 : p.col < 8) : p ∈ allSquares := by
  unfold allSquares
  rw [List.mem_flatMap]
  refine ⟨p.row.toNat, by rw [List.mem_range]; omega, ?_⟩
  rw [List.mem_map]
  refine ⟨p.col.toNat, by rw [List.mem_range]; omega, ?_⟩
  cases p
  simp only [Position.mk.injEq, Int.ofNat_eq_coe]
  exact ⟨Int.toNat_of_nonneg h1, Int.toNat_of_nonneg h3⟩

/-- A nonempty getPossibleMoves at some square makes hasLegalMoves true
for the side to move. -/
theorem possible_nonempty_hasLegal {s : GameState} {f t : Position}
    (hok : boardOK s.board = true) (h : t ∈ getPossibleMoves s f) :
    hasLegalMoves s s.currentPlayer = true := by
  obtain ⟨p, hget, hc, _⟩ := mem_getPossibleMoves_decomp h
  have hv := boardGet_some_valid hok hget
  unfold hasLegalMoves
  rw [List.any_eq_true]
  refine ⟨f, mem_allSquares hv.1 hv.2.1 hv.2.2.1 hv.2.2.2, ?_⟩
  rw [hget]
  have hlen : 0 < (getPossibleMoves s f).length :=
    List.length_pos.mpr (List.ne_nil_of_mem h)
  simp [hc, hlen]

/-- With no legal move for the side to move, every makeMove call is
rejected with the state unchanged. -/
theorem noLegal_makeMove_false {s : GameState}
    (hok : boardOK s.board = true)
    (hno : hasLegalMoves s s.currentPlayer = false) (f t : Position) :
    makeMove s f t = (false, s) := by
  cases hg : boardGet s.board f.row f.col with
  | none => exact makeMove_empty hg
  | some p =>
    by_cases hc : p.color = s.currentPlayer
    · refine makeMove_notOffered hg hc ?_
      intro hmem
      rw [possible_nonempty_hasLegal hok hmem] at hno
      cases hno
    · exact makeMove_wrongColor hg hc

theorem hsm_isCheckmate (s : GameState) (m : Move) :
    (handleSpecialMoves s m).1.isCheckmate = s.isCheckmate := by
  simp only [handleSpecialMoves]
  split_ifs <;> rfl

theorem hsm_isStalemate (s : GameState) (m : Move) :
    (handleSpecialMoves s m).1.isStalemate = s.isStalemate := by
  simp only [handleSpecialMoves]
  split_ifs <;> rfl

theorem ucr_isCheckmate (s : GameState) (m : Move) :
    (updateCastlingRights s m).isCheckmate = s.isCheckmate := by
  simp only [updateCastlingRights]
  split_ifs <;> rfl

theorem ucr_isStalemate (s : GameState) (m : Move) :
    (updateCastlingRights s m).isStalemate = s.isStalemate := by
  simp only [updateCastlingRights]
  split_ifs <;> rfl

theorem uep_isCheckmate (s : GameState) (m : Move) :
    (updateEnPassantTarget s m).isCheckmate = s.isCheckmate := by
  simp only [updateEnPassantTarget]
  split_ifs <;> rfl

theorem uep_isStalemate (s : GameState) (m : Move) :
    (updateEnPassantTarget s m).isStalemate = s.isStalemate := by
  simp only [updateEnPassantTarget]
  split_ifs <;> rfl

/-- What updateGameStatus does to the two terminal flags, phrased on
the input state: either the side to move still has a legal move and
both flags are carried over, or it has none and exactly one of the two
flags is switched on (the other carried over). -/
theorem ugs_flags_cases (s : GameState) :
    (hasLegalMoves s s.currentPlayer = true ∧
      (updateGameStatus s).isCheckmate = s.isCheckmate ∧
      (updateGameStatus s).isStalemate = s.isStalemate) ∨
    (hasLegalMoves s s.currentPlayer = false ∧
      (((updateGameStatus s).isCheckmate = true ∧
        (updateGameStatus s).isStalemate = s.isStalemate) ∨
       ((updateGameStatus s).isStalemate = true ∧
        (updateGameStatus s).isCheckmate = s.isCheckmate))) := by
  have hcong : ∀ X : Bool,
      hasLegalMoves { s with isCheck := X } s.currentPlayer =
        hasLegalMoves s s.currentPlayer :=
    fun X => hasLegalMoves_congr rfl rfl rfl rfl rfl s.currentPlayer
  simp only [updateGameStatus]
  split_ifs with h1 h2
  · rw [Bool.not_eq_true'] at h1
    right
    rw [hcong] at h1
    exact ⟨h1, Or.inl ⟨rfl, rfl⟩⟩
  · rw [Bool.not_eq_true'] at h1
    right
    rw [hcong] at h1
    exact ⟨h1, Or.inr ⟨rfl, rfl⟩⟩
  · left
    rw [Bool.not_eq_true, Bool.not_eq_false'] at h1
    rw [hcong] at h1
    exact ⟨h1, rfl, rfl⟩

/-- boardOK is preserved by handleSpecialMoves. -/
theorem hsm_boardOK {s : GameState} (m : Move)
    (hok : boardOK s.board = true) :
    boardOK (handleSpecialMoves s m).1.board = true := by
  by_cases hcastle : m.piece.type = .king ∧ (m.toSq.col - m.fromSq.col).natAbs = 2
  · rw [hsm_board_castle s m hcastle.1 hcastle.2]
    exact boardOK_boardSet (boardOK_boardSet hok)
  · rw [hsm_board_noncastle s m hcastle]
    split_ifs <;> first
    | exact boardOK_boardSet hok
    | exact hok

/-- boardOK is preserved by makeMove. -/
theorem makeMove_boardOK {s : GameState} (f t : Position)
    (hok : boardOK s.board = true) :
    boardOK (makeMove s f t).2.board = true := by
  cases hb : (makeMove s f t).1
  · rw [makeMove_fst_false hb]
    exact hok
  · obtain ⟨p, _, _, _, heq⟩ := makeMove_success_inv hb
    rw [heq]
    dsimp only
    rw [makeMoveBody_board]
    exact boardOK_boardSet (boardOK_boardSet (hsm_boardOK _ hok))

/-- makeMoveBody is updateGameStatus applied to a state that carries
over the terminal flags of the input state. -/
theorem makeMoveBody_eq_ugs (s : GameState) (f t : Position) (p : Piece) :
    ∃ u : GameState, makeMoveBody s f t p = updateGameStatus u ∧
      u.isCheckmate = s.isCheckmate ∧ u.isStalemate = s.isStalemate := by
  refine ⟨_, rfl, ?_, ?_⟩
  · simp only [uep_isCheckmate, ucr_isCheckmate, hsm_isCheckmate]
  · simp only [uep_isStalemate, ucr_isStalemate, hsm_isStalemate]

/-- After a status update of a state with clear terminal flags, never
both flags are set, and a set flag certifies that the side to move has
no legal move. -/
theorem ugs_inv (u : GameState) (hcm : u.isCheckmate = false)
    (hsm : u.isStalemate = false) :
    ¬((updateGameStatus u).isCheckmate = true ∧
      (updateGameStatus u).isStalemate = true) ∧
    (((updateGameStatus u).isCheckmate = true ∨
      (updateGameStatus u).isStalemate = true) →
      hasLegalMoves (updateGameStatus u) (updateGameStatus u).currentPlayer = false) := by
  have htrans : hasLegalMoves (updateGameStatus u) (updateGameStatus u).currentPlayer =
      hasLegalMoves u u.currentPlayer := by
    rw [ugs_currentPlayer]
    exact hasLegalMoves_congr (ugs_board u) (ugs_currentPlayer u)
      (ugs_enPassantTarget u) (ugs_canCastleKingSide u) (ugs_canCastleQueenSide u) _
  rcases ugs_flags_cases u with ⟨hleg, h1, h2⟩ | ⟨hleg, hcase⟩
  · rw [h1, h2, hcm, hsm]
    refine ⟨by simp, ?_⟩
    intro hc
    rcases hc with hc | hc <;> cases hc
  · refine ⟨?_, fun _ => htrans.trans hleg⟩
    rcases hcase with ⟨h1, h2⟩ | ⟨h1, h2⟩
    · rw [h2, hsm]
      simp
    · rw [h2, hcm]
      simp

/-- All states reachable by the engine satisfy: a well-formed board,
never both terminal flags, and a set terminal flag certifies that the
side to move has no legal move. -/
theorem reachable_inv {s : GameState} (h : Reachable s) :
    boardOK s.board = true ∧
    ¬(s.isCheckmate = true ∧ s.isStalemate = true) ∧
    ((s.isCheckmate = true ∨ s.isStalemate = true) →
      hasLegalMoves s s.currentPlayer = false) := by
  induction h with
  | init =>
    refine ⟨by decide, by decide, ?_⟩
    intro hflag
    rcases hflag with hf | hf <;> cases hf
  | step s s2 f t hreach heq ih =>
    obtain ⟨hok, hnotboth, hflag⟩ := ih
    have hsucc : (makeMove s f t).1 = true := by rw [heq]
    obtain ⟨p, hget, hc, hmem, heq2⟩ := makeMove_success_inv hsucc
    have hhas : hasLegalMoves s s.currentPlayer = true :=
      possible_nonempty_hasLegal hok hmem
    have hflags_false : s.isCheckmate = false ∧ s.isStalemate = false := by
      constructor
      · cases hcm : s.isCheckmate
        · rfl
        · rw [hflag (Or.inl hcm)] at hhas; cases hhas
      · cases hsm : s.isStalemate
        · rfl
        · rw [hflag (Or.inr hsm)] at hhas; cases hhas
    have hs2 : s2 = makeMoveBody s f t p :=
      (Prod.ext_iff.mp (heq.symm.trans heq2)).2
    subst hs2
    have hok2 : boardOK (makeMoveBody s f t p).board = true := by
      have := makeMove_boardOK f t hok
      rw [heq2] at this
      exact this
    obtain ⟨u, hequ, hucm, husm⟩ := makeMoveBody_eq_ugs s f t p
    rw [hequ]
    rw [hequ] at hok2
    exact ⟨hok2, ugs_inv u (hucm.trans hflags_false.1) (husm.trans hflags_false.2)⟩

/-!
Claim C10: terminal states freeze the game.
-/

/-- C10: in every reachable state the two terminal flags are never both
set, and once one is set every makeMove call returns false and leaves
the state unchanged. -/
theorem c10_terminal_freeze :
    ∀ s, Reachable s →
    ¬(s.isCheckmate = true ∧ s.isStalemate = true) ∧
    ((s.isCheckmate = true ∨ s.isStalemate = true) →
      ∀ f t, makeMove s f t = (false, s)) := by
  intro s h
  obtain ⟨hok, hnb, hfl⟩ := reachable_inv h
  exact ⟨hnb, fun hflag f t => noLegal_makeMove_false hok (hfl hflag) f t⟩

/-- C10 witness at the initial state. -/
theorem c10_terminal_freeze_witness :
    ¬(createInitialGameState.isCheckmate = true ∧
      createInitialGameState.isStalemate = true) ∧
    ((createInitialGameState.isCheckmate = true ∨
      createInitialGameState.isStalemate = true) →
      ∀ f t, makeMove createInitialGameState f t = (false, createInitialGameState)) :=
  c10_terminal_freeze createInitialGameState Reachable.init

/-!
Claim C7: the en-passant target discipline.
-/

/-- C7: after every successful makeMove the en-passant target is the
passed-over square exactly when the moved piece was a pawn advancing
two rows, and null otherwise; and pawn move generation offers a
diagonal destination onto an empty square only when it is the recorded
en-passant target. -/
theorem c7_en_passant_discipline :
    (∀ (s : GameState) (f t : Position) (p : Piece),
      boardGet s.board f.row f.col = some p → (makeMove s f t).1 = true →
      (makeMove s f t).2.enPassantTarget =
        (if p.type = .pawn ∧ (t.row - f.row).natAbs = 2 then
          some ⟨(f.row + t.row) / 2, f.col⟩ else none)) ∧
    (∀ (board : Board) (ep : Option Position) (f : Position) (c : Color) (t : Position),
      t ∈ getPawnMoves board ep f c → t.col ≠ f.col →
      boardGet board t.row t.col = none → ep = some t) := by
  constructor
  · intro s f t p hget hsucc
    obtain ⟨p2, hget2, hc, hmem, heq⟩ := makeMove_success_inv hsucc
    rw [hget] at hget2
    injection hget2 with hpp
    subst hpp
    rw [heq]
    dsimp only
    rw [makeMoveBody_enPassantTarget, hsm_piece]
    dsimp only
    by_cases hpawn : p.type = .pawn
    · by_cases h2 : (t.row - f.row).natAbs = 2
      · obtain ⟨p3, hget3, _, hcl⟩ := mem_getPossibleMoves_decomp hmem
        rw [hget] at hget3
        injection hget3 with hpp3
        subst hpp3
        simp only [calculateLegalMoves, hpawn] at hcl
        have hm := mem_getPawnMoves hcl
        have hrow : ¬(t.row = 0 ∨ t.row = 7) := by
          rcases hm.2 with ⟨hcol2, hone | ⟨htwo, hstart⟩⟩ | ⟨hcols, hrow1, _⟩ <;>
            by_cases hw : p.color = .white <;>
            simp only [if_pos, if_neg, hw, reduceIte] at * <;>
            omega
        rw [if_neg (show ¬(p.type = PieceType.pawn ∧ (t.row = 0 ∨ t.row = 7)) from
          fun hcon => hrow hcon.2)]
      · rw [if_neg (show ¬((if p.type = PieceType.pawn ∧ (t.row = 0 ∨ t.row = 7) then
              (⟨PieceType.queen, p.color⟩ : Piece) else p).type = PieceType.pawn ∧
            (t.row - f.row).natAbs = 2) from fun hcon => h2 hcon.2)]
        rw [if_neg (show ¬(p.type = PieceType.pawn ∧ (t.row - f.row).natAbs = 2) from
          fun hcon => h2 hcon.2)]
    · rw [if_neg (show ¬(p.type = PieceType.pawn ∧ (t.row = 0 ∨ t.row = 7)) from
        fun hcon => hpawn hcon.1)]
  · intro board ep f c t hmem hcol hempty
    have hm := mem_getPawnMoves hmem
    rcases hm.2 with ⟨hc2, _⟩ | ⟨_, _, hcap | hept⟩
    · exact absurd hc2 hcol
    · obtain ⟨tp, htp, _⟩ := hcap
      rw [hempty] at htp
      cases htp
    · exact hept

/-- C7 witness: the double step e2e4 sets the target e3; with a crafted
en-passant target f3, the e2 pawn is offered the empty diagonal f3 and
that destination is exactly the recorded target. -/
theorem c7_en_passant_discipline_witness :
    (boardGet createInitialGameState.board (6 : Int) (4 : Int) = some ⟨.pawn, .white⟩ ∧
      (makeMove createInitialGameState ⟨6, 4⟩ ⟨4, 4⟩).1 = true ∧
      (⟨5, 5⟩ : Position) ∈ getPawnMoves createInitialBoard (some ⟨5, 5⟩) ⟨6, 4⟩ .white ∧
      ((5 : Int) ≠ (4 : Int)) ∧
      boardGet createInitialBoard (5 : Int) (5 : Int) = none) ∧
    (makeMove createInitialGameState ⟨6, 4⟩ ⟨4, 4⟩).2.enPassantTarget =
      (if (⟨.pawn, .white⟩ : Piece).type = .pawn ∧ (((4 : Int) - 6).natAbs = 2) then
        some ⟨((6 : Int) + 4) / 2, 4⟩ else none) ∧
    (some ⟨5, 5⟩ : Option Position) = some (⟨5, 5⟩ : Position) := by
  refine ⟨⟨by decide, by decide, by decide, by decide, by decide⟩, ?_, ?_⟩
  · exact c7_en_passant_discipline.1 createInitialGameState ⟨6, 4⟩ ⟨4, 4⟩
      ⟨.pawn, .white⟩ (by decide) (by decide)
  · exact c7_en_passant_discipline.2 createInitialBoard (some ⟨5, 5⟩) ⟨6, 4⟩ .white
      ⟨5, 5⟩ (by decide) (by decide) (by decide)

/-!
noPawnOnFinalRanks accessors.
-/

theorem noPawn_get {b : Board} {r c : Int} {pc : Piece}
    (hok : boardOK b = true) (hnp : noPawnOnFinalRanks b = true)
    (hr : r = 0 ∨ r = 7) (hget : boardGet b r c = some pc) :
    pc.type ≠ .pawn := by
  have hv := boardGet_some_valid hok hget
  unfold noPawnOnFinalRanks at hnp
  rw [List.all_eq_true] at hnp
  have := hnp ⟨r, c⟩ (mem_allSquares hv.1 hv.2.1 hv.2.2.1 hv.2.2.2)
  rw [Bool.or_eq_true] at this
  rcases this with hthis | hthis
  · rw [Bool.not_eq_true', decide_eq_false_iff_not] at hthis
    exact absurd hr hthis
  · rw [hget] at hthis
    exact of_decide_eq_true hthis

theorem noPawn_intro {b : Board}
    (h : ∀ sq ∈ allSquares, (sq.row = 0 ∨ sq.row = 7) →
      ∀ pc, boardGet b sq.row sq.col = some pc → pc.type ≠ .pawn) :
    noPawnOnFinalRanks b = true := by
  unfold noPawnOnFinalRanks
  rw [List.all_eq_true]
  intro sq hsq
  rw [Bool.or_eq_true]
  by_cases hr : sq.row = 0 ∨ sq.row = 7
  · right
    cases hget : boardGet b sq.row sq.col with
    | none => rfl
    | some pc => exact decide_eq_true (h sq hsq hr pc hget)
  · left
    rw [Bool.not_eq_true', decide_eq_false_iff_not]
    exact hr

/-- Inversion of a successful read after a cell write: the value was
already there, or the write produced it at exactly the written cell. -/
theorem boardGet_boardSet_inv {b : Board} {r c r2 c2 : Int}
    {v : Option Piece} {pc : Piece}
    (h : boardGet (boardSet b r c v) r2 c2 = some pc) :
    boardGet b r2 c2 = some pc ∨ (r = r2 ∧ c = c2 ∧ v = some pc) := by
  by_cases hne : r ≠ r2 ∨ c ≠ c2
  · rw [boardGet_boardSet_ne hne] at h
    exact Or.inl h
  · push_neg at hne
    rcases @boardGet_boardSet_cases b r c r2 c2 v with hcase | hcase
    · rw [hcase] at h
      exact Or.inl h
    · rw [hcase] at h
      exact Or.inr ⟨hne.1, hne.2, h⟩

/-!
Claim C8: promotion.
-/

/-- C8: on a successful makeMove of a pawn onto the final rank of its
color, the destination square afterwards holds a queen of the mover's
color; and a successful makeMove never leaves a pawn on row 0 or row 7
when the prior board had none there. -/
theorem c8_promotion :
    ∀ (s : GameState) (f t : Position) (p : Piece),
      boardOK s.board = true →
      boardGet s.board f.row f.col = some p →
      (makeMove s f t).1 = true →
      ((p.type = .pawn → t.row = (if p.color = .white then (0 : Int) else 7) →
        boardGet (makeMove s f t).2.board t.row t.col = some ⟨.queen, p.color⟩) ∧
       (noPawnOnFinalRanks s.board = true →
        noPawnOnFinalRanks (makeMove s f t).2.board = true)) := by
  intro s f t p hok hget hsucc
  obtain ⟨p2, hget2, hc, hmem, heq⟩ := makeMove_success_inv hsucc
  rw [hget] at hget2
  injection hget2 with hpp
  subst hpp
  have hv := boardGet_some_valid hok hget
  rw [heq]
  dsimp only
  constructor
  · intro hpawn hfinal
    rw [makeMoveBody_board]
    obtain ⟨p3, hget3, _, hcl⟩ := mem_getPossibleMoves_decomp hmem
    rw [hget] at hget3
    injection hget3 with e3
    subst e3
    simp only [calculateLegalMoves, hpawn] at hcl
    have hm := mem_getPawnMoves hcl
    have hvt : 0 ≤ t.row ∧ t.row < 8 ∧ 0 ≤ t.col ∧ t.col < 8 := by
      have hval := hm.1
      unfold isValidPosition at hval
      exact of_decide_eq_true hval
    have hrowne : f.row ≠ t.row := by
      rcases hm.2 with ⟨_, hone | ⟨htwo, _⟩⟩ | ⟨_, hone, _⟩ <;>
        by_cases hw : p.color = .white <;>
        simp only [if_pos, if_neg, hw, reduceIte] at * <;>
        omega
    have hfr : t.row = 0 ∨ t.row = 7 := by
      by_cases hw : p.color = .white <;> simp only [hw, reduceIte] at hfinal
      · exact Or.inl hfinal
      · exact Or.inr hfinal
    rw [boardGet_boardSet_ne (Or.inl hrowne)]
    rw [boardGet_boardSet_self (hsm_boardOK _ hok) hvt]
    rw [hsm_piece]
    dsimp only
    rw [if_pos ⟨hpawn, hfr⟩]
  · intro hnp
    rw [makeMoveBody_board]
    apply noPawn_intro
    intro sq hsq hr pc hgetpc
    rcases boardGet_boardSet_inv hgetpc with h1 | ⟨_, _, hnone⟩
    · rcases boardGet_boardSet_inv h1 with h2 | ⟨htr, htc, hvpc⟩
      · by_cases hcastle : p.type = PieceType.king ∧ (t.col - f.col).natAbs = 2
        · rw [hsm_board_castle _ _ hcastle.1 hcastle.2] at h2
          dsimp only at h2
          rcases boardGet_boardSet_inv h2 with h3 | ⟨_, _, hnone2⟩
          · rcases boardGet_boardSet_inv h3 with h4 | ⟨hfr2, _, hval⟩
            · exact noPawn_get hok hnp hr h4
            · refine noPawn_get hok hnp ?_ hval
              rw [hfr2]
              exact hr
          · cases hnone2
        · rw [hsm_board_noncastle _ _ hcastle] at h2
          split_ifs at h2
          all_goals first
          | exact noPawn_get hok hnp hr h2
          | (rcases boardGet_boardSet_inv h2 with h3 | ⟨_, _, hnone2⟩
             exacts [noPawn_get hok hnp hr h3, Option.noConfusion hnone2])
      · injection hvpc with hv2
        rw [← hv2]
        rw [hsm_piece]
        dsimp only
        by_cases hpq : p.type = PieceType.pawn
        · rw [if_pos ⟨hpq, by rw [htr]; exact hr⟩]
          intro hcon
          cases hcon
        · rw [if_neg (fun hcon => hpq hcon.1)]
          exact hpq
    · cases hnone

/-- C8 witness: a crafted position with a white pawn on b2 one step
from promotion; pushing it to b1 yields a white queen there, and the
no-pawn-on-final-ranks property is preserved. -/
theorem c8_promotion_witness :
    (boardOK promoFixtureState.board = true ∧
      boardGet promoFixtureState.board (1 : Int) (1 : Int) = some ⟨.pawn, .white⟩ ∧
      (makeMove promoFixtureState ⟨1, 1⟩ ⟨0, 1⟩).1 = true ∧
      noPawnOnFinalRanks promoFixtureState.board = true) ∧
    boardGet (makeMove promoFixtureState ⟨1, 1⟩ ⟨0, 1⟩).2.board 0 1 =
      some ⟨.queen, .white⟩ ∧
    noPawnOnFinalRanks (makeMove promoFixtureState ⟨1, 1⟩ ⟨0, 1⟩).2.board = true := by
  refine ⟨⟨by decide, by decide, by decide, by decide⟩, ?_, ?_⟩
  · exact (c8_promotion promoFixtureState ⟨1, 1⟩ ⟨0, 1⟩ ⟨.pawn, .white⟩
      (by decide) (by decide) (by decide)).1 (by decide) (by decide)
  · exact (c8_promotion promoFixtureState ⟨1, 1⟩ ⟨0, 1⟩ ⟨.pawn, .white⟩
      (by decide) (by decide) (by decide)).2 (by decide)

/-!
Claim C4: the getGameState snapshot.  The spread copies the moveHistory
array and the two castling-rights objects by reference, so the claim of
a fully independent deep copy is refuted: a later makeMove pushes onto
the shared history array and the snapshot observes it.  What does hold:
the grid is rebuilt by copyBoard (value-identical), while history and
rights are shared through the same references.
-/

/-- C4 counterexample: the snapshot taken before 1. e2e4 shares the
history array with the engine; after the move the snapshot's observable
move history is no longer empty. -/
theorem c4_counterexample :
    (getGameStateJs initJsState).historyRef = initJsState.historyRef ∧
    (resolveJs (getGameStateJs initJsState) initJsHeap).moveHistory = [] ∧
    (makeMoveJs initJsState initJsHeap ⟨6, 4⟩ ⟨4, 4⟩).1 = true ∧
    (resolveJs (getGameStateJs initJsState)
      (makeMoveJs initJsState initJsHeap ⟨6, 4⟩ ⟨4, 4⟩).2.2).moveHistory ≠ [] := by
  refine ⟨rfl, by decide, by decide, by decide⟩

/-- C4 amended: the snapshot rebuilds only the grid (and that copy is
value-identical to the source); the moveHistory array and both
castling-rights objects are returned as the same references, so through
any heap the snapshot and the engine state resolve to the same history
and rights. -/
theorem c4_snapshot_sharing :
    (∀ st : JsStateRef,
      (getGameStateJs st).board = copyBoard st.board ∧
      (getGameStateJs st).historyRef = st.historyRef ∧
      (getGameStateJs st).kingSideRef = st.kingSideRef ∧
      (getGameStateJs st).queenSideRef = st.queenSideRef) ∧
    (∀ b : Board, copyBoard b = b) ∧
    (∀ (st : JsStateRef) (h2 : JsHeap),
      (resolveJs (getGameStateJs st) h2).moveHistory =
        (resolveJs st h2).moveHistory ∧
      (resolveJs (getGameStateJs st) h2).canCastleKingSide =
        (resolveJs st h2).canCastleKingSide ∧
      (resolveJs (getGameStateJs st) h2).canCastleQueenSide =
        (resolveJs st h2).canCastleQueenSide) := by
  refine ⟨fun st => ⟨rfl, rfl, rfl, rfl⟩, ?_, fun st h2 => ⟨rfl, rfl, rfl⟩⟩
  intro b
  unfold copyBoard
  rw [show (fun (row : List (Option Piece)) => row.map (fun cell => cell)) =
    (fun (row : List (Option Piece)) => row) from funext (fun row => List.map_id' row)]
  exact List.map_id' b

/-!
Ext arithmetic facts used by the search proofs.
-/

theorem maxE_negInf_left (b : Ext) : Ext.maxE .negInf b = b := rfl

theorem minE_posInf_left (b : Ext) : Ext.minE .posInf b = b := by
  cases b <;> rfl

theorem maxE_fin_fin (a b : Int) : ∃ n, Ext.maxE (.fin a) (.fin b) = .fin n := by
  unfold Ext.maxE
  split_ifs
  · exact ⟨b, rfl⟩
  · exact ⟨a, rfl⟩

theorem minE_fin_fin (a b : Int) : ∃ n, Ext.minE (.fin a) (.fin b) = .fin n := by
  unfold Ext.minE
  split_ifs
  · exact ⟨a, rfl⟩
  · exact ⟨b, rfl⟩

theorem blt_negInf_fin (n : Int) : Ext.blt .negInf (.fin n) = true := rfl

/-- Decomposition of membership in getAllLegalMoves. -/
theorem mem_getAllLegalMoves_inv {s : GameState} {c : Color} {m : Move}
    (h : m ∈ getAllLegalMoves s c) :
    m.fromSq ∈ allSquares ∧
    boardGet s.board m.fromSq.row m.fromSq.col = some m.piece ∧
    m.piece.color = c ∧ m.toSq ∈ getPossibleMoves s m.fromSq := by
  unfold getAllLegalMoves at h
  rw [List.mem_flatMap] at h
  obtain ⟨sq, hsq, hm⟩ := h
  cases hget : boardGet s.board sq.row sq.col with
  | none => rw [hget] at hm; cases hm
  | some piece =>
    rw [hget] at hm
    dsimp only at hm
    split_ifs at hm with hcol
    · rw [List.mem_map] at hm
      obtain ⟨dest, hdest, heqm⟩ := hm
      subst heqm
      exact ⟨hsq, hget, hcol, hdest⟩
    · cases hm

/-- The color argument of a nonempty getAllLegalMoves is the side to
move. -/
theorem mem_getAllLegalMoves_player {s : GameState} {c : Color} {m : Move}
    (h : m ∈ getAllLegalMoves s c) : c = s.currentPlayer := by
  obtain ⟨_, hget, hcol, hdest⟩ := mem_getAllLegalMoves_inv h
  obtain ⟨p, hget2, hc2, _⟩ := mem_getPossibleMoves_decomp hdest
  rw [hget] at hget2
  injection hget2 with hpp
  rw [← hcol, hpp, hc2]

/-- Every member of getAllLegalMoves is accepted by makeMove. -/
theorem mem_getAllLegalMoves_success {s : GameState} {c : Color} {m : Move}
    (h : m ∈ getAllLegalMoves s c) :
    (makeMove s m.fromSq m.toSq).1 = true ∧
    makeMove s m.fromSq m.toSq = (true, makeMoveBody s m.fromSq m.toSq m.piece) := by
  obtain ⟨_, hget, hcol, hdest⟩ := mem_getAllLegalMoves_inv h
  have hcur := mem_getAllLegalMoves_player h
  have heq := makeMove_success hget (by rw [hcol, hcur]) hdest
  exact ⟨by rw [heq], heq⟩

/-- hasLegalMoves agrees with the emptiness of getAllLegalMoves. -/
theorem hasLegal_iff_getAll (s : GameState) (c : Color) :
    hasLegalMoves s c = true ↔ getAllLegalMoves s c ≠ [] := by
  constructor
  · intro h
    unfold hasLegalMoves at h
    rw [List.any_eq_true] at h
    obtain ⟨sq, hsq, hpred⟩ := h
    intro hnil
    rw [show getAllLegalMoves s c = [] ↔ ∀ x ∈ allSquares,
        (fun p => match boardGet s.board p.row p.col with
          | some piece =>
            if piece.color = c then
              (getPossibleMoves s p).map (fun dest =>
                (⟨p, dest, piece, boardGet s.board dest.row dest.col,
                  false, false, none⟩ : Move))
            else []
          | none => []) x = [] from List.flatMap_eq_nil_iff] at hnil
    have := hnil sq hsq
    revert hpred this
    cases hget : boardGet s.board sq.row sq.col with
    | none => intro hpred _; cases hpred
    | some piece =>
      intro hpred hthis
      rw [Bool.and_eq_true, beq_iff_eq] at hpred
      dsimp only at hthis
      rw [hget] at hthis
      dsimp only at hthis
      rw [if_pos hpred.1] at hthis
      rw [List.map_eq_nil_iff] at hthis
      have := of_decide_eq_true hpred.2
      rw [hthis] at this
      cases this
  · intro h
    cases hL : getAllLegalMoves s c with
    | nil => exact absurd hL h
    | cons m rest =>
      have hm : m ∈ getAllLegalMoves s c := by rw [hL]; exact List.mem_cons_self m rest
      obtain ⟨hsq, hget, hcol, hdest⟩ := mem_getAllLegalMoves_inv hm
      unfold hasLegalMoves
      rw [List.any_eq_true]
      refine ⟨m.fromSq, hsq, ?_⟩
      rw [hget]
      have hlen : 0 < (getPossibleMoves s m.fromSq).length :=
        List.length_pos.mpr (List.ne_nil_of_mem hdest)
      simp [hcol, hlen]

/-- A successful makeMove leaves a state whose terminal flags, when both
clear, guarantee a nonempty move list for the new side to move. -/
theorem makeMove_flags_complete {s : GameState} {f t : Position}
    (hsucc : (makeMove s f t).1 = true)
    (hcm : (makeMove s f t).2.isCheckmate = false)
    (hsm : (makeMove s f t).2.isStalemate = false) :
    getAllLegalMoves (makeMove s f t).2 (makeMove s f t).2.currentPlayer ≠ [] := by
  obtain ⟨p, hget, hc, hmem, heq⟩ := makeMove_success_inv hsucc
  rw [heq] at hcm hsm ⊢
  dsimp only at hcm hsm ⊢
  obtain ⟨u, hequ, _, _⟩ := makeMoveBody_eq_ugs s f t p
  rw [hequ] at hcm hsm ⊢
  have htrans : hasLegalMoves (updateGameStatus u) (updateGameStatus u).currentPlayer =
      hasLegalMoves u u.currentPlayer := by
    rw [ugs_currentPlayer]
    exact hasLegalMoves_congr (ugs_board u) (ugs_currentPlayer u)
      (ugs_enPassantTarget u) (ugs_canCastleKingSide u) (ugs_canCastleQueenSide u) _
  rcases ugs_flags_cases u with ⟨hleg, _, _⟩ | ⟨_, hcase⟩
  · rw [← (hasLegal_iff_getAll (updateGameStatus u) (updateGameStatus u).currentPlayer)]
    rw [htrans]
    exact hleg
  · rcases hcase with ⟨h1, _⟩ | ⟨h1, _⟩
    · rw [h1] at hcm; cases hcm
    · rw [h1] at hsm; cases hsm

/-- With a finite accumulator and finite child evaluations, the
maximizing alpha-beta loop returns a finite value. -/
theorem abMaxLoop_fin_acc (f : GameState → Ext → Ext → Ext) (s : GameState) :
    ∀ (L : List Move) (alpha beta : Ext) (k : Int),
    (∀ m ∈ L, ∀ a b, ∃ n, f (applyMove s m) a b = .fin n) →
    ∃ n, abMaxLoop f s L alpha beta (.fin k) = .fin n := by
  intro L
  induction L with
  | nil => intro alpha beta k _; exact ⟨k, rfl⟩
  | cons m rest ih =>
    intro alpha beta k hf
    simp only [abMaxLoop]
    obtain ⟨n1, hn1⟩ := hf m (List.mem_cons_self m rest) alpha beta
    rw [hn1]
    obtain ⟨n2, hn2⟩ := maxE_fin_fin k n1
    rw [hn2]
    split_ifs
    · exact ⟨n2, rfl⟩
    · exact ih (Ext.maxE alpha (.fin n1)) beta n2
        (fun m2 hm2 a b => hf m2 (List.mem_cons_of_mem m hm2) a b)

/-- On a nonempty move list with finite child evaluations, the
maximizing loop started at -Infinity returns a finite value. -/
theorem abMaxLoop_fin (f : GameState → Ext → Ext → Ext) (s : GameState)
    (L : List Move) (hne : L ≠ [])
    (hf : ∀ m ∈ L, ∀ a b, ∃ n, f (applyMove s m) a b = .fin n)
    (alpha beta : Ext) :
    ∃ n, abMaxLoop f s L alpha beta .negInf = .fin n := by
  cases L with
  | nil => exact absurd rfl hne
  | cons m rest =>
    simp only [abMaxLoop]
    obtain ⟨n1, hn1⟩ := hf m (List.mem_cons_self m rest) alpha beta
    rw [hn1, maxE_negInf_left]
    split_ifs
    · exact ⟨n1, rfl⟩
    · exact abMaxLoop_fin_acc f s rest (Ext.maxE alpha (.fin n1)) beta n1
        (fun m2 hm2 a b => hf m2 (List.mem_cons_of_mem m hm2) a b)

/-- Finite-accumulator version for the minimizing loop. -/
theorem abMinLoop_fin_acc (f : GameState → Ext → Ext → Ext) (s : GameState) :
    ∀ (L : List Move) (alpha beta : Ext) (k : Int),
    (∀ m ∈ L, ∀ a b, ∃ n, f (applyMove s m) a b = .fin n) →
    ∃ n, abMinLoop f s L alpha beta (.fin k) = .fin n := by
  intro L
  induction L with
  | nil => intro alpha beta k _; exact ⟨k, rfl⟩
  | cons m rest ih =>
    intro alpha beta k hf
    simp only [abMinLoop]
    obtain ⟨n1, hn1⟩ := hf m (List.mem_cons_self m rest) alpha beta
    rw [hn1]
    obtain ⟨n2, hn2⟩ := minE_fin_fin k n1
    rw [hn2]
    split_ifs
    · exact ⟨n2, rfl⟩
    · exact ih alpha (Ext.minE beta (.fin n1)) n2
        (fun m2 hm2 a b => hf m2 (List.mem_cons_of_mem m hm2) a b)

/-- On a nonempty move list with finite child evaluations, the
minimizing loop started at +Infinity returns a finite value. -/
theorem abMinLoop_fin (f : GameState → Ext → Ext → Ext) (s : GameState)
    (L : List Move) (hne : L ≠ [])
    (hf : ∀ m ∈ L, ∀ a b, ∃ n, f (applyMove s m) a b = .fin n)
    (alpha beta : Ext) :
    ∃ n, abMinLoop f s L alpha beta .posInf = .fin n := by
  cases L with
  | nil => exact absurd rfl hne
  | cons m rest =>
    simp only [abMinLoop]
    obtain ⟨n1, hn1⟩ := hf m (List.mem_cons_self m rest) alpha beta
    rw [hn1, minE_posInf_left]
    split_ifs
    · exact ⟨n1, rfl⟩
    · exact abMinLoop_fin_acc f s rest alpha (Ext.minE beta (.fin n1)) n1
        (fun m2 hm2 a b => hf m2 (List.mem_cons_of_mem m hm2) a b)

/-- On any state whose side to move matches the isMaximizing flag and
whose clear terminal flags guarantee a move, minimax never returns an
infinity: the base evaluation is finite and every loop is over a
nonempty list of moves whose children re-establish the invariant. -/
theorem minimax_fin :
    ∀ (d : Nat) (s : GameState) (isMax : Bool),
    s.currentPlayer = (if isMax then Color.black else Color.white) →
    (s.isCheckmate = false → s.isStalemate = false →
      getAllLegalMoves s s.currentPlayer ≠ []) →
    ∀ alpha beta : Ext, ∃ n, minimax s d alpha beta isMax = .fin n := by
  intro d
  induction d with
  | zero => intro s isMax _ _ alpha beta; exact ⟨evaluatePosition s.board, rfl⟩
  | succ d ih =>
    intro s isMax hplayer hflags alpha beta
    by_cases hterm : (s.isCheckmate || s.isStalemate) = true
    · simp only [minimax]
      rw [if_pos hterm]
      exact ⟨evaluatePosition s.board, rfl⟩
    · have h2 : (s.isCheckmate || s.isStalemate) = false := Bool.eq_false_iff.mpr hterm
      obtain ⟨hcm, hsm⟩ := Bool.or_eq_false_iff.mp h2
      have hne := hflags hcm hsm
      have hstep : ∀ m ∈ getAllLegalMoves s s.currentPlayer,
          (applyMove s m).currentPlayer = otherColor s.currentPlayer ∧
          ((applyMove s m).isCheckmate = false → (applyMove s m).isStalemate = false →
            getAllLegalMoves (applyMove s m) (applyMove s m).currentPlayer ≠ []) := by
        intro m hm
        obtain ⟨hsucc, heqm⟩ := mem_getAllLegalMoves_success hm
        constructor
        · show (makeMove s m.fromSq m.toSq).2.currentPlayer = otherColor s.currentPlayer
          rw [heqm]
          exact makeMoveBody_currentPlayer s m.fromSq m.toSq m.piece
        · exact fun h1a h2a => makeMove_flags_complete hsucc h1a h2a
      cases isMax with
      | true =>
        have hcur : s.currentPlayer = Color.black := hplayer
        simp only [minimax]
        rw [if_neg hterm]
        simp only [if_true, if_false]
        apply abMaxLoop_fin
        · rw [← hcur]; exact hne
        · intro m hm a b
          have hs := hstep m (by rw [hcur]; exact hm)
          exact ih (applyMove s m) false (by rw [hs.1, hcur]; rfl) hs.2 a b
      | false =>
        have hcur : s.currentPlayer = Color.white := hplayer
        simp only [minimax]
        rw [if_neg hterm, if_neg Bool.false_ne_true]
        apply abMinLoop_fin
        · rw [← hcur]; exact hne
        · intro m hm a b
          have hs := hstep m (by rw [hcur]; exact hm)
          exact ih (applyMove s m) true (by rw [hs.1, hcur]; rfl) hs.2 a b

/-- Once the best-move fold has recorded a move, it never forgets it. -/
theorem foldl_best_ne_none (g : Move → Ext) :
    ∀ (L : List Move) (acc : Option Move × Ext), acc.1 ≠ none →
    (L.foldl (fun acc2 m =>
      if Ext.blt acc2.2 (g m) then (some m, g m) else acc2) acc).1 ≠ none := by
  intro L
  induction L with
  | nil => intro acc h; exact h
  | cons m rest ih =>
    intro acc h
    rw [List.foldl_cons]
    apply ih
    dsimp only
    split_ifs
    · exact fun hc => Option.noConfusion hc
    · exact h

/-- Under the deep-copy idealization, getBestMove returns none exactly
on an empty legal-move list for black: with moves present, the first
scored child is finite, so it beats the -Infinity start and the fold
keeps some move. -/
theorem getBestMove_none_iff (s : GameState) :
    getBestMove s = none ↔ getAllLegalMoves s .black = [] := by
  constructor
  · intro h
    cases hL : getAllLegalMoves s .black with
    | nil => rfl
    | cons m rest =>
      exfalso
      simp only [getBestMove] at h
      rw [hL] at h
      rw [if_neg (by rw [List.isEmpty_cons]; exact Bool.false_ne_true)] at h
      rw [List.foldl_cons] at h
      have hm : m ∈ getAllLegalMoves s .black := by
        rw [hL]; exact List.mem_cons_self m rest
      obtain ⟨hsucc, heqm⟩ := mem_getAllLegalMoves_success hm
      have hcur : Color.black = s.currentPlayer := mem_getAllLegalMoves_player hm
      have hp1 : (applyMove s m).currentPlayer =
          (if false then Color.black else Color.white) := by
        show (makeMove s m.fromSq m.toSq).2.currentPlayer = _
        rw [heqm]
        show (makeMoveBody s m.fromSq m.toSq m.piece).currentPlayer = _
        rw [makeMoveBody_currentPlayer, ← hcur]
        rfl
      have hp2 := fun h1 h2 => makeMove_flags_complete hsucc h1 h2
      obtain ⟨n, hn⟩ := minimax_fin 3 (applyMove s m) false hp1 hp2 .negInf .posInf
      dsimp only at h
      rw [hn] at h
      rw [if_pos (blt_negInf_fin n)] at h
      exact foldl_best_ne_none
        (fun m2 => minimax (applyMove s m2) 3 .negInf .posInf false)
        rest (some m, .fin n) (fun hc => Option.noConfusion hc) h
  · intro h
    simp only [getBestMove]
    rw [h]
    rfl

/-!
Claim C6: getBestMove and terminal signalling.  Under the reference
semantics of the source the claim fails: the search itself contaminates
the shared castling-rights objects, an enumerated castling move then
fails at apply time, the recursive call enumerates the wrong color on
the unflipped state and returns -Infinity, so every root value can be
-Infinity and getBestMove returns none on a live position with a legal
move and no terminal flag set.  What survives: with no legal black
move getBestMove returns none (the guard before the loop), and under
the deep-copy idealization of createGameCopy the full iff holds.
-/

/-- C6 counterexample (reference semantics): black to move with exactly
one legal move and no terminal flag set, white castling-ready; during
the search the white king's ordinary moves clear the shared rights
objects, the enumerated queenside castle then fails to apply, its
subtree returns -Infinity, and getBestMove answers none on a live
position. -/
theorem c6_counterexample :
    getAllLegalMoves (resolveR searchHeap0 c6FixtureR) .black ≠ [] ∧
    c6FixtureR.isCheckmate = false ∧
    c6FixtureR.isStalemate = false ∧
    getBestMoveR c6FixtureR searchHeap0 = none :=
  ⟨by decide, rfl, rfl, by decide⟩

/-- C6: with no legal black move, getBestMove returns none (reference
semantics); and under the deep-copy idealization of createGameCopy,
getBestMove returns none exactly when black has no legal move. -/
theorem c6_getBestMove_none :
    (∀ (st : RGameState) (hp : SearchHeap),
      getAllLegalMoves (resolveR hp st) .black = [] → getBestMoveR st hp = none) ∧
    (∀ s : GameState, getBestMove s = none ↔ getAllLegalMoves s .black = []) := by
  refine ⟨?_, getBestMove_none_iff⟩
  intro st hp h
  simp only [getBestMoveR]
  rw [h]
  rfl

/-- Witness: in the white-to-move fixture black has no generated moves
and the reference-semantics getBestMove returns none; the idealized iff
instantiated at the initial state. -/
theorem c6_getBestMove_none_witness :
    (getAllLegalMoves (resolveR searchHeap0 c5FixtureR) .black = [] ∧
      getBestMoveR c5FixtureR searchHeap0 = none) ∧
    (getBestMove createInitialGameState = none ↔
      getAllLegalMoves createInitialGameState .black = []) :=
  ⟨⟨by decide, c6_getBestMove_none.1 c5FixtureR searchHeap0 (by decide)⟩,
    c6_getBestMove_none.2 createInitialGameState⟩

/-!
Ordering toolkit for Ext, used by the alpha-beta equivalence proof.
-/

theorem ne_true_of_false {a : Bool} (h : a = false) : a ≠ true :=
  fun hc => Bool.false_ne_true (h.symm.trans hc)

theorem ble_refl (a : Ext) : Ext.ble a a = true := by
  cases a <;> simp [Ext.ble]

theorem ble_trans {a b c : Ext} (h1 : Ext.ble a b = true)
    (h2 : Ext.ble b c = true) : Ext.ble a c = true := by
  cases a <;> cases b <;> cases c <;> simp_all [Ext.ble] <;> omega

theorem ble_total {a b : Ext} (h : Ext.ble a b = false) :
    Ext.ble b a = true := by
  cases a <;> cases b <;> simp_all [Ext.ble] <;> omega

theorem ble_antisymm {a b : Ext} (h1 : Ext.ble a b = true)
    (h2 : Ext.ble b a = true) : a = b := by
  cases a <;> cases b <;> simp_all [Ext.ble] <;> omega

theorem eq_negInf_of_ble {v : Ext} (h : Ext.ble v .negInf = true) :
    v = .negInf := by
  cases v
  · rfl
  · exact Bool.noConfusion h
  · exact Bool.noConfusion h

theorem eq_posInf_of_ble {v : Ext} (h : Ext.ble .posInf v = true) :
    v = .posInf := by
  cases v
  · exact Bool.noConfusion h
  · exact Bool.noConfusion h
  · rfl

theorem le_maxE_left (a b : Ext) : Ext.ble a (Ext.maxE a b) = true := by
  unfold Ext.maxE
  split_ifs with h
  · exact h
  · exact ble_refl a

theorem le_maxE_right (a b : Ext) : Ext.ble b (Ext.maxE a b) = true := by
  unfold Ext.maxE
  split_ifs with h
  · exact ble_refl b
  · exact ble_total (Bool.eq_false_iff.mpr h)

theorem maxE_le {a b c : Ext} (h1 : Ext.ble a c = true)
    (h2 : Ext.ble b c = true) : Ext.ble (Ext.maxE a b) c = true := by
  unfold Ext.maxE
  split_ifs
  · exact h2
  · exact h1

theorem maxE_cases (a b : Ext) : Ext.maxE a b = a ∨ Ext.maxE a b = b := by
  unfold Ext.maxE
  split_ifs
  · exact Or.inr rfl
  · exact Or.inl rfl

theorem maxE_eq_right {a b : Ext} (h : Ext.ble a b = true) :
    Ext.maxE a b = b := by
  unfold Ext.maxE
  rw [if_pos h]

theorem maxE_eq_left {a b : Ext} (h : Ext.ble b a = true) :
    Ext.maxE a b = a := by
  unfold Ext.maxE
  split_ifs with h2
  · exact ble_antisymm h h2
  · rfl

theorem maxE_negInf_right (a : Ext) : Ext.maxE a .negInf = a := by
  cases a <;> rfl

theorem maxE_assoc (a b c : Ext) :
    Ext.maxE (Ext.maxE a b) c = Ext.maxE a (Ext.maxE b c) := by
  by_cases hab : Ext.ble a b = true
  · rw [maxE_eq_right hab]
    by_cases hbc : Ext.ble b c = true
    · rw [maxE_eq_right hbc, maxE_eq_right (ble_trans hab hbc)]
    · rw [maxE_eq_left (ble_total (Bool.eq_false_iff.mpr hbc)),
        maxE_eq_right hab]
  · have hba := ble_total (Bool.eq_false_iff.mpr hab)
    rw [maxE_eq_left hba]
    by_cases hbc : Ext.ble b c = true
    · rw [maxE_eq_right hbc]
    · have hcb := ble_total (Bool.eq_false_iff.mpr hbc)
      rw [maxE_eq_left hcb, maxE_eq_left hba, maxE_eq_left (ble_trans hcb hba)]

theorem minE_le_left (a b : Ext) : Ext.ble (Ext.minE a b) a = true := by
  unfold Ext.minE
  split_ifs with h
  · exact ble_refl a
  · exact ble_total (Bool.eq_false_iff.mpr h)

theorem minE_le_right (a b : Ext) : Ext.ble (Ext.minE a b) b = true := by
  unfold Ext.minE
  split_ifs with h
  · exact h
  · exact ble_refl b

theorem le_minE {c a b : Ext} (h1 : Ext.ble c a = true)
    (h2 : Ext.ble c b = true) : Ext.ble c (Ext.minE a b) = true := by
  unfold Ext.minE
  split_ifs
  · exact h1
  · exact h2

theorem minE_cases (a b : Ext) : Ext.minE a b = a ∨ Ext.minE a b = b := by
  unfold Ext.minE
  split_ifs
  · exact Or.inl rfl
  · exact Or.inr rfl

theorem minE_eq_left {a b : Ext} (h : Ext.ble a b = true) :
    Ext.minE a b = a := by
  unfold Ext.minE
  rw [if_pos h]

theorem minE_eq_right {a b : Ext} (h : Ext.ble b a = true) :
    Ext.minE a b = b := by
  unfold Ext.minE
  split_ifs with h2
  · exact ble_antisymm h2 h
  · rfl

theorem minE_posInf_right (a : Ext) : Ext.minE a .posInf = a := by
  cases a <;> rfl

theorem minE_assoc (a b c : Ext) :
    Ext.minE (Ext.minE a b) c = Ext.minE a (Ext.minE b c) := by
  by_cases hab : Ext.ble a b = true
  · rw [minE_eq_left hab]
    by_cases hbc : Ext.ble b c = true
    · rw [minE_eq_left hbc, minE_eq_left hab, minE_eq_left (ble_trans hab hbc)]
    · have hcb := ble_total (Bool.eq_false_iff.mpr hbc)
      rw [minE_eq_right hcb]
  · have hba := ble_total (Bool.eq_false_iff.mpr hab)
    rw [minE_eq_right hba]
    by_cases hbc : Ext.ble b c = true
    · rw [minE_eq_left hbc, minE_eq_right hba]
    · have hcb := ble_total (Bool.eq_false_iff.mpr hbc)
      rw [minE_eq_right hcb, minE_eq_right (ble_trans hcb hba)]

/-- The plain maximizing fold only grows its accumulator. -/
theorem plainMaxLoop_mono (fp : GameState → Ext) (s : GameState) :
    ∀ (L : List Move) (acc : Ext),
    Ext.ble acc (plainMaxLoop fp s L acc) = true := by
  intro L
  induction L with
  | nil => intro acc; exact ble_refl acc
  | cons m rest ih =>
    intro acc
    simp only [plainMaxLoop]
    exact ble_trans (le_maxE_left acc (fp (applyMove s m))) (ih _)

/-- The plain minimizing fold only shrinks its accumulator. -/
theorem plainMinLoop_mono (fp : GameState → Ext) (s : GameState) :
    ∀ (L : List Move) (acc : Ext),
    Ext.ble (plainMinLoop fp s L acc) acc = true := by
  intro L
  induction L with
  | nil => intro acc; exact ble_refl acc
  | cons m rest ih =>
    intro acc
    simp only [plainMinLoop]
    exact ble_trans (ih _) (minE_le_left acc (fp (applyMove s m)))

theorem Rrel_self (r alpha beta : Ext) : Rrel r r alpha beta :=
  ⟨fun _ _ => rfl, fun _ => ble_refl r, fun _ => ble_refl r⟩

/-- The maximizing alpha-beta loop satisfies the fail-soft contract
against the plain maximizing fold.  The loop is entered with running
alpha equal to max(alpha0, mAb); mAb and the plain accumulator mPl agree
whenever mAb is above alpha0, and mPl is below mAb otherwise. -/
theorem abMaxLoop_R (f : GameState → Ext → Ext → Ext) (fp : GameState → Ext)
    (s : GameState)
    (hIH : ∀ (g : GameState) (a b : Ext), Ext.ble b a = false →
      Rrel (f g a b) (fp g) a b) :
    ∀ (L : List Move) (alpha0 beta mAb mPl : Ext),
    Ext.ble beta (Ext.maxE alpha0 mAb) = false →
    (Ext.ble mAb alpha0 = false → mAb = mPl) →
    (Ext.ble mAb alpha0 = true → Ext.ble mPl mAb = true) →
    Rrel (abMaxLoop f s L (Ext.maxE alpha0 mAb) beta mAb)
      (plainMaxLoop fp s L mPl) alpha0 beta := by
  intro L
  induction L with
  | nil =>
    intro alpha0 beta mAb mPl hwin ha hb
    refine ⟨?_, ?_, ?_⟩
    · intro h1 _
      exact ha h1
    · intro h1
      exact hb h1
    · intro h1
      exact absurd (ble_trans h1 (le_maxE_right alpha0 mAb)) (ne_true_of_false hwin)
  | cons m rest ih =>
    intro alpha0 beta mAb mPl hwin ha hb
    have hR := hIH (applyMove s m) (Ext.maxE alpha0 mAb) beta hwin
    simp only [abMaxLoop, plainMaxLoop]
    set e := f (applyMove s m) (Ext.maxE alpha0 mAb) beta with hedef
    set v := fp (applyMove s m) with hvdef
    by_cases hbr : Ext.ble beta (Ext.maxE (Ext.maxE alpha0 mAb) e) = true
    · rw [if_pos hbr]
      have hbe : Ext.ble beta e = true := by
        rcases maxE_cases (Ext.maxE alpha0 mAb) e with hc | hc
        · rw [hc] at hbr
          exact absurd hbr (ne_true_of_false hwin)
        · rw [hc] at hbr
          exact hbr
      have hmabe : Ext.ble mAb e = true := by
        by_cases h6 : Ext.ble mAb e = true
        · exact h6
        · exact absurd
            (ble_trans (ble_trans hbe (ble_total (Bool.eq_false_iff.mpr h6)))
              (le_maxE_right alpha0 mAb))
            (ne_true_of_false hwin)
      rw [maxE_eq_right hmabe]
      refine ⟨?_, ?_, ?_⟩
      · intro _ h2
        exact absurd hbe (ne_true_of_false h2)
      · intro h1
        exact absurd (ble_trans (ble_trans hbe h1) (le_maxE_left alpha0 mAb))
          (ne_true_of_false hwin)
      · intro _
        exact ble_trans (hR.2.2 hbe)
          (ble_trans (le_maxE_right mPl v) (plainMaxLoop_mono fp s rest _))
    · rw [if_neg hbr]
      rw [maxE_assoc alpha0 mAb e]
      have hwin2 : Ext.ble beta (Ext.maxE alpha0 (Ext.maxE mAb e)) = false := by
        rw [← maxE_assoc]
        exact Bool.eq_false_iff.mpr hbr
      refine ih alpha0 beta (Ext.maxE mAb e) (Ext.maxE mPl v) hwin2 ?_ ?_
      · intro h1
        by_cases hea : Ext.ble e (Ext.maxE alpha0 mAb) = true
        · have hv := hR.2.1 hea
          rcases maxE_cases mAb e with hc | hc
          · rw [hc] at h1 ⊢
            have hmm := ha h1
            have hem : Ext.ble e mAb = true := hc ▸ le_maxE_right mAb e
            rw [← hmm]
            exact (maxE_eq_left (ble_trans hv hem)).symm
          · rw [hc] at h1 ⊢
            rcases maxE_cases alpha0 mAb with hc2 | hc2
            · rw [hc2] at hea
              exact absurd hea (ne_true_of_false h1)
            · rw [hc2] at hea
              have h3 : Ext.ble mAb e = true := hc ▸ le_maxE_left mAb e
              have h4 : e = mAb := ble_antisymm hea h3
              rw [h4] at h1 ⊢
              have hmm := ha h1
              rw [← hmm]
              have hvm : Ext.ble v mAb = true := h4 ▸ hv
              exact (maxE_eq_left hvm).symm
        · have hble : Ext.ble e (Ext.maxE alpha0 mAb) = false :=
            Bool.eq_false_iff.mpr hea
          have hbeta_e : Ext.ble beta e = false := by
            cases h6 : Ext.ble beta e
            · rfl
            · exact absurd (ble_trans h6 (le_maxE_right (Ext.maxE alpha0 mAb) e)) hbr
          have he_eq_v := hR.1 hble hbeta_e
          have h5 : Ext.ble mAb e = true := by
            by_cases h6 : Ext.ble mAb e = true
            · exact h6
            · exact absurd
                (ble_trans (ble_total (Bool.eq_false_iff.mpr h6))
                  (le_maxE_right alpha0 mAb))
                (ne_true_of_false hble)
          rw [maxE_eq_right h5]
          have hmPl_le : Ext.ble mPl e = true := by
            by_cases h7 : Ext.ble mAb alpha0 = true
            · exact ble_trans (hb h7) h5
            · rw [← ha (Bool.eq_false_iff.mpr h7)]
              exact h5
          rw [← he_eq_v]
          exact (maxE_eq_right hmPl_le).symm
      · intro h1
        have hm : Ext.ble mAb alpha0 = true := ble_trans (le_maxE_left mAb e) h1
        have he2 : Ext.ble e alpha0 = true := ble_trans (le_maxE_right mAb e) h1
        have hv := hR.2.1 (ble_trans he2 (le_maxE_left alpha0 mAb))
        have hp := hb hm
        exact maxE_le (ble_trans hp (le_maxE_left mAb e))
          (ble_trans hv (le_maxE_right mAb e))

/-- The minimizing alpha-beta loop satisfies the fail-soft contract
against the plain minimizing fold: the mirror image of abMaxLoop_R with
the running beta equal to min(beta0, mAb). -/
theorem abMinLoop_R (f : GameState → Ext → Ext → Ext) (fp : GameState → Ext)
    (s : GameState)
    (hIH : ∀ (g : GameState) (a b : Ext), Ext.ble b a = false →
      Rrel (f g a b) (fp g) a b) :
    ∀ (L : List Move) (alpha beta0 mAb mPl : Ext),
    Ext.ble (Ext.minE beta0 mAb) alpha = false →
    (Ext.ble beta0 mAb = false → mAb = mPl) →
    (Ext.ble beta0 mAb = true → Ext.ble mAb mPl = true) →
    Rrel (abMinLoop f s L alpha (Ext.minE beta0 mAb) mAb)
      (plainMinLoop fp s L mPl) alpha beta0 := by
  intro L
  induction L with
  | nil =>
    intro alpha beta0 mAb mPl hwin ha hb
    refine ⟨?_, ?_, ?_⟩
    · intro _ h2
      exact ha h2
    · intro h1
      exact absurd (ble_trans (minE_le_right beta0 mAb) h1) (ne_true_of_false hwin)
    · intro h1
      exact hb h1
  | cons m rest ih =>
    intro alpha beta0 mAb mPl hwin ha hb
    have hR := hIH (applyMove s m) alpha (Ext.minE beta0 mAb) hwin
    simp only [abMinLoop, plainMinLoop]
    set e := f (applyMove s m) alpha (Ext.minE beta0 mAb) with hedef
    set v := fp (applyMove s m) with hvdef
    by_cases hbr : Ext.ble (Ext.minE (Ext.minE beta0 mAb) e) alpha = true
    · rw [if_pos hbr]
      have hea : Ext.ble e alpha = true := by
        rcases minE_cases (Ext.minE beta0 mAb) e with hc | hc
        · rw [hc] at hbr
          exact absurd hbr (ne_true_of_false hwin)
        · rw [hc] at hbr
          exact hbr
      have hmabe : Ext.ble e mAb = true := by
        by_cases h6 : Ext.ble e mAb = true
        · exact h6
        · exact absurd
            (ble_trans (minE_le_right beta0 mAb)
              (ble_trans (ble_total (Bool.eq_false_iff.mpr h6)) hea))
            (ne_true_of_false hwin)
      rw [minE_eq_right hmabe]
      refine ⟨?_, ?_, ?_⟩
      · intro h1 _
        exact absurd hea (ne_true_of_false h1)
      · intro _
        exact ble_trans (plainMinLoop_mono fp s rest _)
          (ble_trans (minE_le_right mPl v) (hR.2.1 hea))
      · intro h1
        exact absurd (ble_trans (minE_le_left beta0 mAb) (ble_trans h1 hea))
          (ne_true_of_false hwin)
    · rw [if_neg hbr]
      rw [minE_assoc beta0 mAb e]
      have hwin2 : Ext.ble (Ext.minE beta0 (Ext.minE mAb e)) alpha = false := by
        rw [← minE_assoc]
        exact Bool.eq_false_iff.mpr hbr
      refine ih alpha beta0 (Ext.minE mAb e) (Ext.minE mPl v) hwin2 ?_ ?_
      · intro h1
        by_cases hea : Ext.ble (Ext.minE beta0 mAb) e = true
        · have hv := hR.2.2 hea
          rcases minE_cases mAb e with hc | hc
          · rw [hc] at h1 ⊢
            have hmm := ha h1
            have hem : Ext.ble mAb e = true := hc ▸ minE_le_right mAb e
            rw [← hmm]
            exact (minE_eq_left (ble_trans hem hv)).symm
          · rw [hc] at h1 ⊢
            rcases minE_cases beta0 mAb with hc2 | hc2
            · rw [hc2] at hea
              exact absurd hea (ne_true_of_false h1)
            · rw [hc2] at hea
              have h3 : Ext.ble e mAb = true := hc ▸ minE_le_left mAb e
              have h4 : e = mAb := ble_antisymm h3 hea
              rw [h4] at h1 ⊢
              have hmm := ha h1
              rw [← hmm]
              have hvm : Ext.ble mAb v = true := h4 ▸ hv
              exact (minE_eq_left hvm).symm
        · have hble : Ext.ble (Ext.minE beta0 mAb) e = false :=
            Bool.eq_false_iff.mpr hea
          have he_alpha : Ext.ble e alpha = false := by
            cases h6 : Ext.ble e alpha
            · rfl
            · exact absurd (ble_trans (minE_le_right (Ext.minE beta0 mAb) e) h6) hbr
          have he_eq_v := hR.1 he_alpha hble
          have h5 : Ext.ble e mAb = true :=
            ble_trans (ble_total hble) (minE_le_right beta0 mAb)
          rw [minE_eq_right h5]
          have hmPl_ge : Ext.ble e mPl = true := by
            by_cases h7 : Ext.ble beta0 mAb = true
            · exact ble_trans h5 (hb h7)
            · rw [← ha (Bool.eq_false_iff.mpr h7)]
              exact h5
          rw [← he_eq_v]
          exact (minE_eq_right hmPl_ge).symm
      · intro h1
        have hm : Ext.ble beta0 mAb = true := ble_trans h1 (minE_le_left mAb e)
        have he2 : Ext.ble beta0 e = true := ble_trans h1 (minE_le_right mAb e)
        have hv := hR.2.2 (ble_trans (minE_le_left beta0 mAb) he2)
        have hp := hb hm
        exact le_minE (ble_trans (minE_le_left mAb e) hp)
          (ble_trans (minE_le_right mAb e) hv)

/-- Depth induction: at every node the pruned minimax satisfies the
fail-soft contract against the unpruned minimax over the same window. -/
theorem minimax_relates_plain :
    ∀ (d : Nat) (s : GameState) (isMax : Bool) (alpha beta : Ext),
    Ext.ble beta alpha = false →
    Rrel (minimax s d alpha beta isMax) (minimaxPlain s d isMax) alpha beta := by
  intro d
  induction d with
  | zero =>
    intro s isMax alpha beta _
    exact Rrel_self _ _ _
  | succ d ih =>
    intro s isMax alpha beta hwin
    by_cases hterm : (s.isCheckmate || s.isStalemate) = true
    · simp only [minimax, minimaxPlain]
      rw [if_pos hterm, if_pos hterm]
      exact Rrel_self _ _ _
    · cases isMax with
      | true =>
        simp only [minimax, minimaxPlain]
        rw [if_neg hterm, if_neg hterm]
        simp only [if_true]
        have h := abMaxLoop_R (fun g a b => minimax g d a b false)
          (fun g => minimaxPlain g d false) s
          (fun g a b hab => ih g false a b hab)
          (getAllLegalMoves s .black) alpha beta .negInf .negInf
          (by rw [maxE_negInf_right]; exact hwin)
          (fun _ => rfl)
          (fun _ => ble_refl .negInf)
        rw [maxE_negInf_right] at h
        exact h
      | false =>
        simp only [minimax, minimaxPlain]
        rw [if_neg hterm, if_neg hterm,
          if_neg Bool.false_ne_true, if_neg Bool.false_ne_true]
        have h := abMinLoop_R (fun g a b => minimax g d a b true)
          (fun g => minimaxPlain g d true) s
          (fun g a b hab => ih g true a b hab)
          (getAllLegalMoves s .white) alpha beta .posInf .posInf
          (by rw [minE_posInf_right]; exact hwin)
          (fun _ => rfl)
          (fun _ => ble_refl .posInf)
        rw [minE_posInf_right] at h
        exact h

/-- Over the full window the fail-soft contract collapses to equality:
the pruned and unpruned minimax agree at every position and depth. -/
theorem minimax_full_window (s : GameState) (d : Nat) (isMax : Bool) :
    minimax s d .negInf .posInf isMax = minimaxPlain s d isMax := by
  obtain ⟨h1, h2, h3⟩ := minimax_relates_plain d s isMax .negInf .posInf rfl
  cases hr : minimax s d .negInf .posInf isMax with
  | negInf =>
    rw [hr] at h2
    exact (eq_negInf_of_ble (h2 rfl)).symm
  | fin n =>
    rw [hr] at h1
    exact h1 rfl rfl
  | posInf =>
    rw [hr] at h3
    exact (eq_posInf_of_ble (h3 rfl)).symm

/-- The two best-move drivers coincide: each child is scored over the
full window, where the pruned and unpruned values agree. -/
theorem getBestMove_eq_plain (s : GameState) :
    getBestMove s = getBestMovePlain s := by
  simp only [getBestMove, getBestMovePlain]
  have hf : (fun (acc : Option Move × Ext) (m : Move) =>
      if Ext.blt acc.2 (minimax (applyMove s m) 3 .negInf .posInf false) then
        (some m, minimax (applyMove s m) 3 .negInf .posInf false)
      else acc) =
      (fun (acc : Option Move × Ext) (m : Move) =>
        if Ext.blt acc.2 (minimaxPlain (applyMove s m) 3 false) then
          (some m, minimaxPlain (applyMove s m) 3 false)
        else acc) := by
    funext acc m
    rw [minimax_full_window]
  rw [hf]

/-!
Claim C5: pruning and the search result.  Under the reference semantics
the equivalence with an unpruned minimax over the identical position
and depth fails: the search mutates the shared rights objects, so
whether an enumerated child applies successfully depends on what was
explored before it, and the pruned run can return -Infinity where the
unpruned reference value is finite.  The pruning discipline itself is
sound: under the deep-copy idealization of createGameCopy the
alpha-beta minimax equals the unpruned minimax everywhere.
-/

/-- C5 counterexample (reference semantics): at the white-to-move
fixture and depth 2 the source's alpha-beta search returns -Infinity
(the contaminated castle child fails to apply and the recursive call
enumerates the wrong color), while the unpruned minimax over the
identical position and depth is finite; the two disagree. -/
theorem c5_counterexample :
    (minimaxR c5FixtureR searchHeap0 2 .negInf .posInf false).1 = .negInf ∧
    minimaxPlain (resolveR searchHeap0 c5FixtureR) 2 false ≠ .negInf ∧
    (minimaxR c5FixtureR searchHeap0 2 .negInf .posInf false).1 ≠
      minimaxPlain (resolveR searchHeap0 c5FixtureR) 2 false := by
  have h1 : (minimaxR c5FixtureR searchHeap0 2 .negInf .posInf false).1 = .negInf := by
    decide
  have h2 : minimaxPlain (resolveR searchHeap0 c5FixtureR) 2 false ≠ .negInf := by
    decide
  exact ⟨h1, h2, fun hAB => h2 (hAB.symm.trans h1)⟩

/-- C5 amended: under the deep-copy idealization of createGameCopy, at
every position, depth and maximizing flag the alpha-beta minimax over
the full window returns exactly the value of the unpruned minimax, and
getBestMove picks exactly the move the unpruned driver picks. -/
theorem c5_alphabeta_eq_minimax :
    (∀ (s : GameState) (d : Nat) (isMax : Bool),
      minimax s d .negInf .posInf isMax = minimaxPlain s d isMax) ∧
    (∀ s : GameState, getBestMove s = getBestMovePlain s) :=
  ⟨minimax_full_window, getBestMove_eq_plain⟩

/-!
Claim C9: the freshly constructed game state.
-/

/-- C9: the initial state has the 16 pawns on rows 1 and 6, the back
rank order rook-knight-bishop-queen-king-bishop-knight-rook on rows 0
and 7, white to move, all four castling rights, no en-passant target,
empty history and all three status flags false. -/
theorem c9_initial_state :
    (∀ c : Nat, c < 8 →
      boardGet createInitialGameState.board 1 (Int.ofNat c) = some ⟨.pawn, .black⟩ ∧
      boardGet createInitialGameState.board 6 (Int.ofNat c) = some ⟨.pawn, .white⟩ ∧
      boardGet createInitialGameState.board 0 (Int.ofNat c) =
        some ⟨backRankOrder.getD c .pawn, .black⟩ ∧
      boardGet createInitialGameState.board 7 (Int.ofNat c) =
        some ⟨backRankOrder.getD c .pawn, .white⟩) ∧
    (allSquares.countP (fun p =>
      match boardGet createInitialGameState.board p.row p.col with
      | some pc => pc.type == .pawn
      | none => false)) = 16 ∧
    createInitialGameState.currentPlayer = .white ∧
    createInitialGameState.canCastleKingSide = ⟨true, true⟩ ∧
    createInitialGameState.canCastleQueenSide = ⟨true, true⟩ ∧
    createInitialGameState.enPassantTarget = none ∧
    createInitialGameState.moveHistory = [] ∧
    createInitialGameState.isCheck = false ∧
    createInitialGameState.isCheckmate = false ∧
    createInitialGameState.isStalemate = false := by
  decide

/-!
Claim C3: makeMove rejection and commit behaviour.  The hypothesis
0 <= from.row < 8 scopes the statement to origin rows at which the
JavaScript board lookup does not throw.
-/

/-- C3: makeMove returns false with the state unchanged exactly on the
three rejection conditions, and otherwise returns true with the fully
updated state produced by the complete update pipeline makeMoveBody. -/
theorem c3_makeMove_reject_or_commit :
    ∀ (s : GameState) (f t : Position), 0 ≤ f.row → f.row < 8 →
    ((boardGet s.board f.row f.col = none ∨
      (∀ p, boardGet s.board f.row f.col = some p → p.color ≠ s.currentPlayer) ∨
      t ∉ getPossibleMoves s f) → makeMove s f t = (false, s)) ∧
    (∀ p, boardGet s.board f.row f.col = some p → p.color = s.currentPlayer →
      t ∈ getPossibleMoves s f → makeMove s f t = (true, makeMoveBody s f t p)) := by
  intro s f t _ _
  constructor
  · intro hcond
    cases hg : boardGet s.board f.row f.col with
    | none => exact makeMove_empty hg
    | some p =>
      by_cases hc : p.color = s.currentPlayer
      · rcases hcond with hnone | hwc | hnm
        · rw [hg] at hnone; cases hnone
        · exact absurd hc (hwc p hg)
        · exact makeMove_notOffered hg hc hnm
      · exact makeMove_wrongColor hg hc
  · intro p hg hc hm
    exact makeMove_success hg hc hm

/-- C3 witness: at the initial state, d5 is rejected for the e2 pawn
with the state unchanged, while e4 commits with success. -/
theorem c3_witness :
    (0 ≤ (6 : Int) ∧ (6 : Int) < 8 ∧
      (⟨3, 3⟩ : Position) ∉ getPossibleMoves createInitialGameState ⟨6, 4⟩ ∧
      (⟨4, 4⟩ : Position) ∈ getPossibleMoves createInitialGameState ⟨6, 4⟩) ∧
    makeMove createInitialGameState ⟨6, 4⟩ ⟨3, 3⟩ = (false, createInitialGameState) ∧
    makeMove createInitialGameState ⟨6, 4⟩ ⟨4, 4⟩ =
      (true, makeMoveBody createInitialGameState ⟨6, 4⟩ ⟨4, 4⟩ ⟨.pawn, .white⟩) := by
  refine ⟨by decide, ?_, ?_⟩
  · exact (c3_makeMove_reject_or_commit createInitialGameState ⟨6, 4⟩ ⟨3, 3⟩
      (by decide) (by decide)).1 (Or.inr (Or.inr (by decide)))
  · exact (c3_makeMove_reject_or_commit createInitialGameState ⟨6, 4⟩ ⟨4, 4⟩
      (by decide) (by decide)).2 ⟨.pawn, .white⟩ (by decide) (by decide) (by decide)

/-!
Claim C1.  The claim as stated is refuted: in a reachable position the
engine offers a move whose application leaves the mover's own king
attacked, because the legality filter simulates only the piece
relocation and computes attack rays on the pre-move board.  After
1. e2e4 e7e5 2. Qd1h5, black is offered f7f6; playing it opens the
h5-e8 diagonal and the black king stands attacked.  What does hold is
that every offered destination passes the engine's own filter.
-/

/-- C1 counterexample: c1s3 is reachable with black to move, f7f6 is
among the offered destinations, makeMove accepts it, and afterwards the
king of the mover (black) is attacked on the resulting board. -/
theorem c1_counterexample :
    Reachable c1s3 ∧ c1s3.currentPlayer = .black ∧
    (⟨2, 5⟩ : Position) ∈ getPossibleMoves c1s3 ⟨1, 5⟩ ∧
    makeMove c1s3 ⟨1, 5⟩ ⟨2, 5⟩ = (true, c1s4) ∧
    isInCheck c1s4.board c1s4.enPassantTarget c1s4.canCastleKingSide
      c1s4.canCastleQueenSide c1s4.board .black = true := by
  refine ⟨?_, by decide, by decide, pair_of_fst_true (by decide), by decide⟩
  have h1 : makeMove createInitialGameState ⟨6, 4⟩ ⟨4, 4⟩ = (true, c1s1) :=
    pair_of_fst_true (by decide)
  have h2 : makeMove c1s1 ⟨1, 4⟩ ⟨3, 4⟩ = (true, c1s2) :=
    pair_of_fst_true (by decide)
  have h3 : makeMove c1s2 ⟨7, 3⟩ ⟨3, 7⟩ = (true, c1s3) :=
    pair_of_fst_true (by decide)
  exact Reachable.step _ _ _ _
    (Reachable.step _ _ _ _ (Reachable.step _ _ _ _ Reachable.init h1) h2) h3

/-- C1 amended: every destination returned by getPossibleMoves passes
the engine's legality filter isLegalMove (king not reported attacked on
the board with the piece relocated and no special-move side effects,
rays computed on the pre-move board). -/
theorem c1_offered_moves_pass_filter :
    ∀ (s : GameState) (f t : Position) (p : Piece),
    boardGet s.board f.row f.col = some p → t ∈ getPossibleMoves s f →
    isLegalMove s.board s.enPassantTarget s.canCastleKingSide
      s.canCastleQueenSide s.currentPlayer ⟨f, t, p, none, false, false, none⟩ = true := by
  intro s f t p hget hmem
  unfold getPossibleMoves at hmem
  rw [hget] at hmem
  by_cases hc : p.color = s.currentPlayer
  · simp only [hc, ne_eq, not_true_eq_false, if_false] at hmem
    exact (List.mem_filter.mp hmem).2
  · simp only [ne_eq, hc, not_false_eq_true, if_true] at hmem
    cases hmem

/-- C1 amended witness at the initial position: the e2 pawn's offered
destination e3 passes the filter. -/
theorem c1_offered_moves_pass_filter_witness :
    (boardGet createInitialGameState.board 6 4 = some ⟨.pawn, .white⟩ ∧
      (⟨5, 4⟩ : Position) ∈ getPossibleMoves createInitialGameState ⟨6, 4⟩) ∧
    isLegalMove createInitialGameState.board createInitialGameState.enPassantTarget
      createInitialGameState.canCastleKingSide createInitialGameState.canCastleQueenSide
      createInitialGameState.currentPlayer
      ⟨⟨6, 4⟩, ⟨5, 4⟩, ⟨.pawn, .white⟩, none, false, false, none⟩ = true :=
  ⟨by decide, c1_offered_moves_pass_filter createInitialGameState ⟨6, 4⟩ ⟨5, 4⟩
    ⟨.pawn, .white⟩ (by decide) (by decide)⟩

end Chess
